import Mathlib

/-!
# Sidecar injector: patch generation (`pkg/webhook/sidecarhandler.go`)

A shallow embedding of the patch-generation engine of the sidecar injector
webhook, followed by theorems about it.

Modelling conventions

* Go strings are Lean `String`s (valid Unicode text).
* A Go slice is a `List`; a nil slice and an empty slice are both `[]`, except
  for the result of `configmapSidecarNames`, whose nil-ness the caller tests,
  which is an `Option (List String)`.
* A Go `map[string]string` is a `GoMap`: `none` is the nil map, `some es` a
  non-nil map whose entries `es` are listed in the order in which a `range`
  statement visits them.  Go leaves that order unspecified; every theorem
  below is quantified over all entry lists, hence over every order.
* `interface{}` patch values are tagged by their dynamic type.
* The API client is a function from (namespace, object name) to the outcome of
  the `Get`, fixed for the duration of one request; `PatchPodCreate.run` keeps,
  next to `patches`, the list of the `Get` calls made.
* Logging is not modelled, nor is `podName`, which only feeds log messages.
* `yaml.Unmarshal` is a parameter giving the slice left in the target and whether
  an error was returned, independently of each other.
* Where a property reads the returned paths and operations, the reading is
  defined here too: the reference tokens of a JSON pointer (RFC 6901) and the
  effect of the array operations on an array that may not exist yet.
-/

namespace Webhook

/-! ## Data model -/

/-- Go `map[string]string`; `none` is the nil map. -/
abbrev GoMap := Option (List (String × String))

namespace GoMap

/-- The comma-ok lookup `v, ok := m[key]`; a nil map has no key. -/
def get? (m : GoMap) (key : String) : Option String :=
  match m with
  | none => none
  | some es => (es.find? (fun e => e.1 == key)).map Prod.snd

/-- The `ok` of `_, ok := m[key]`. -/
def contains (m : GoMap) (key : String) : Bool :=
  (m.get? key).isSome

/-- The entries a `range` over the map visits; none for a nil map. -/
def entries (m : GoMap) : List (String × String) :=
  match m with
  | none => []
  | some es => es

/-- The keys of the map, in `range` order. -/
def keys (m : GoMap) : List String :=
  m.entries.map Prod.fst

end GoMap

/-- Stand-in for `corev1.Container`; patch generation never looks inside. -/
structure Container where
  Name : String
  Image : String
  deriving DecidableEq, Repr

/-- Stand-in for `corev1.Volume`. -/
structure Volume where
  Name : String
  deriving DecidableEq, Repr

/-- Stand-in for `corev1.LocalObjectReference`. -/
structure LocalObjectReference where
  Name : String
  deriving DecidableEq, Repr

/-- Sidecar template (`type Sidecar struct`). -/
structure Sidecar where
  Name : String
  InitContainers : List Container
  Containers : List Container
  Volumes : List Volume
  ImagePullSecrets : List LocalObjectReference
  Annotations : GoMap
  Labels : GoMap
  deriving DecidableEq, Repr

/-- The part of `corev1.PodSpec` the patcher reads. -/
structure PodSpec where
  InitContainers : List Container
  Containers : List Container
  Volumes : List Volume
  ImagePullSecrets : List LocalObjectReference
  deriving DecidableEq, Repr

/-- The part of `corev1.Pod` the patcher reads (`ObjectMeta` is embedded). -/
structure Pod where
  Name : String
  GenerateName : String
  Namespace : String
  Annotations : GoMap
  Labels : GoMap
  Spec : PodSpec
  deriving DecidableEq, Repr

/-- Patch operation (`admission.PatchOperation`), generic in the payload carried by
`Value`. -/
structure PatchOperation (V : Type) where
  Op : String
  Path : String
  Value : V
  deriving DecidableEq, Repr

/-- Dynamic type of the `Value` of an array patch over element type `T`:
the bare element `item`, or the slice literal `[]T{item}`. -/
inductive ArrayValue (T : Type) where
  | item (x : T)
  | slice (xs : List T)
  deriving DecidableEq, Repr

/-- Dynamic type of the `Value` of a map patch: a whole `map[string]string`, or
one `string`. -/
inductive ObjectValue where
  | map (m : GoMap)
  | string (s : String)
  deriving DecidableEq, Repr

/-- Dynamic type of the `Value` of an operation returned by `PatchPodCreate`: the
value of an array patch over one of the three element types, or of a map
patch. -/
inductive PodValue where
  | container (v : ArrayValue Container)
  | volume (v : ArrayValue Volume)
  | localObjectReference (v : ArrayValue LocalObjectReference)
  | object (v : ObjectValue)
  deriving DecidableEq, Repr

/-- Storing a typed value in the `interface{}` field `Value`. -/
def PatchOperation.box {V W : Type} (f : V → W) (p : PatchOperation V) : PatchOperation W :=
  { Op := p.Op, Path := p.Path, Value := f p.Value }

/-- The part of `corev1.ConfigMap` the patcher reads. -/
structure ConfigMap where
  Data : GoMap
  deriving DecidableEq, Repr

/-- The `error` of a ConfigMap `Get`, as classified by `k8serrors.IsNotFound`. -/
inductive K8sError where
  | notFound
  | other (msg : String)
  deriving DecidableEq, Repr

/-- Source type `SidecarInjectorPatcher`.  `K8sClient ns name` is the outcome of
`K8sClient.CoreV1().ConfigMaps(ns).Get(ctx, name, metav1.GetOptions{})` during
the request. -/
structure SidecarInjectorPatcher where
  K8sClient : String → String → Except K8sError ConfigMap
  InjectPrefix : String
  InjectName : String
  SidecarDataKey : String
  AllowAnnotationOverrides : Bool
  AllowLabelOverrides : Bool

/-- What the process reads from outside the patcher: the environment variable
`CONF_NAMESPACE` (`os.Getenv`, empty when unset), the outcome of `os.ReadFile` on
the service-account namespace file, and the decoder `yaml.Unmarshal` into a
`[]Sidecar`, which gives the slice left in the target (`none` is nil) and
whether it returned an error. -/
structure Env where
  CONF_NAMESPACE : String
  namespaceFile : Except String String
  yamlUnmarshal : String → Option (List Sidecar) × Bool

/-! ## Library functions called by the source -/

/-- Go `unicode.IsSpace`: the Latin-1 space characters, then the other code points
with the Unicode `White_Space` property. -/
def unicode.IsSpace (r : Char) : Bool :=
  let n := r.toNat
  if n ≤ 0xFF then
    n == 0x09 || n == 0x0A || n == 0x0B || n == 0x0C || n == 0x0D || n == 0x20
      || n == 0x85 || n == 0xA0
  else
    n == 0x1680 || (0x2000 ≤ n && n ≤ 0x200A) || n == 0x2028 || n == 0x2029
      || n == 0x202F || n == 0x205F || n == 0x3000

/-- Splitting a character list at every occurrence of `sep`. -/
def strings.splitChars (sep : Char) : List Char → List (List Char)
  | [] => [[]]
  | c :: cs =>
    if c = sep then [] :: strings.splitChars sep cs
    else
      match strings.splitChars sep cs with
      | [] => [[c]]
      | piece :: pieces => (c :: piece) :: pieces

/-- Go `strings.Split(s, sep)` for a separator of one character: the substrings
between the separators, empty ones included; never an empty slice. -/
def strings.Split (s : String) (sep : Char) : List String :=
  (strings.splitChars sep s.data).map String.mk

/-- Go `strings.TrimSpace`: leading and trailing white space removed. -/
def strings.TrimSpace (s : String) : String :=
  String.mk ((s.data.dropWhile unicode.IsSpace).rdropWhile unicode.IsSpace)

/-- Library function `lo.Map` of `samber/lo`: the iteratee receives the item and its index. -/
def lo.Map {T R : Type} (collection : List T) (iteratee : T → Nat → R) : List R :=
  collection.enum.map (fun e => iteratee e.2 e.1)

/-! ## Annotation resolver -/

/-- Source method `sideCarInjectionAnnotation`. -/
def sideCarInjectionAnnotation (patcher : SidecarInjectorPatcher) : String :=
  patcher.InjectPrefix ++ "/" ++ patcher.InjectName

/-- Source method `configmapSidecarNames`; `none` is the nil slice. -/
def configmapSidecarNames (patcher : SidecarInjectorPatcher) (_nspace : String) (pod : Pod) :
    Option (List String) :=
  let annotations : GoMap := if pod.Annotations.isSome then pod.Annotations else some []
  match annotations.get? ( sideCarInjectionAnnotation patcher) with
  | some sidecars =>
    let parts := lo.Map (strings.Split sidecars ',') (fun part _ => strings.TrimSpace part)
    if parts.length > 0 then some parts else none
  | none => none

/-! ## Patch synthesis -/

/-- One iteration of the loop of `createArrayPatches`: the state is `patches`. -/
def createArrayPatches.step {T : Type} (existingCollection : List T) (path : String)
    (patches : List (PatchOperation (ArrayValue T))) (entry : Nat × T) :
    List (PatchOperation (ArrayValue T)) :=
  let index := entry.1
  let item := entry.2
  let first := index == 0 && existingCollection.length == 0
  let indexPath := if !first then path ++ "/-" else path
  let value := if !first then ArrayValue.item item else ArrayValue.slice [item]
  patches ++ [{ Op := "add", Path := indexPath, Value := value }]

/-- Source function `createArrayPatches`: `for index, item := range newCollection`. -/
def createArrayPatches {T : Type} (newCollection existingCollection : List T)
    (path : String) : List (PatchOperation (ArrayValue T)) :=
  newCollection.enum.foldl (createArrayPatches.step existingCollection path) []

/-- One iteration of the `range newMap` loop of `createObjectPatches`. -/
def createObjectPatches.step (existingMap : GoMap) (path : String) (override : Bool)
    (patches : List (PatchOperation ObjectValue)) (entry : String × String) :
    List (PatchOperation ObjectValue) :=
  let key := entry.1
  let value := entry.2
  let ok := existingMap.contains key
  if !ok || (ok && override) then
    let op := if ok then "replace" else "add"
    patches ++ [{ Op := op, Path := path ++ "/" ++ key, Value := ObjectValue.string value }]
  else
    patches

/-- Source function `createObjectPatches`. -/
def createObjectPatches (newMap existingMap : GoMap) (path : String) (override : Bool) :
    List (PatchOperation ObjectValue) :=
  match existingMap with
  | none => [{ Op := "add", Path := path, Value := ObjectValue.map newMap }]
  | some _ => newMap.entries.foldl (createObjectPatches.step existingMap path override) []

/-! ## Namespace resolution -/

/-- Source function `getCommonConfigmapNamespace`, as a function of what it reads. -/
def getCommonConfigmapNamespace (env : Env) : Except String String :=
  let config_namespace := env.CONF_NAMESPACE
  if config_namespace != "" then
    .ok config_namespace
  else
    match env.namespaceFile with
    | .error err => .error ("failure while looking up configmap namespace: " ++ err)
    | .ok ns =>
      let config_namespace := strings.TrimSpace ns
      if config_namespace == "" then
        .error "could not determine configmap namespace. Set CONF_NAMESPACE global var"
      else
        .ok config_namespace

/-! ## Template loader and `PatchPodCreate` -/

/-- State of the loops of `PatchPodCreate`: the variable `patches`, and the record
`gets` of every `ConfigMaps(ns).Get(name)` call made so far, as `(ns, name)`, in
call order. -/
structure LoopState where
  patches : List (PatchOperation PodValue)
  gets : List (String × String)
  deriving DecidableEq, Repr

/-- Body of `for _, sidecar := range sidecars`: the six appends to `patches`. -/
def PatchPodCreate.applySidecar (patcher : SidecarInjectorPatcher) (pod : Pod)
    (patches : List (PatchOperation PodValue)) (sidecar : Sidecar) :
    List (PatchOperation PodValue) :=
  let patches := patches ++ (createArrayPatches sidecar.InitContainers
    pod.Spec.InitContainers "/spec/initContainers").map (PatchOperation.box PodValue.container)
  let patches := patches ++ (createArrayPatches sidecar.Containers
    pod.Spec.Containers "/spec/containers").map (PatchOperation.box PodValue.container)
  let patches := patches ++ (createArrayPatches sidecar.Volumes
    pod.Spec.Volumes "/spec/volumes").map (PatchOperation.box PodValue.volume)
  let patches := patches ++ (createArrayPatches sidecar.ImagePullSecrets
    pod.Spec.ImagePullSecrets "/spec/imagePullSecrets").map
      (PatchOperation.box PodValue.localObjectReference)
  let patches := patches ++ (createObjectPatches sidecar.Annotations pod.Annotations
    "/metadata/annotations" patcher.AllowAnnotationOverrides).map
      (PatchOperation.box PodValue.object)
  let patches := patches ++ (createObjectPatches sidecar.Labels pod.Labels
    "/metadata/labels" patcher.AllowLabelOverrides).map (PatchOperation.box PodValue.object)
  patches

/-- The loop `for _, ns := range config_namespaces` for one requested name, run on
the namespaces still to visit.  `continue` and falling out of the `if` chain go on
with the remaining namespaces; `break` returns the state. -/
def PatchPodCreate.searchNamespaces (patcher : SidecarInjectorPatcher) (env : Env) (pod : Pod)
    (configmapSidecarName : String) : List String → LoopState → LoopState
  | [], st => st
  | ns :: rest, st =>
    let st : LoopState := { st with gets := st.gets ++ [(ns, configmapSidecarName)] }
    match patcher.K8sClient ns configmapSidecarName with
    | .error .notFound =>
      PatchPodCreate.searchNamespaces patcher env pod configmapSidecarName rest st
    | .error (.other _) => st
    | .ok configmapSidecar =>
      match configmapSidecar.Data.get? patcher.SidecarDataKey with
      | some sidecarsStr =>
        match (env.yamlUnmarshal sidecarsStr).1 with
        | some sidecars =>
          { st with patches := sidecars.foldl (PatchPodCreate.applySidecar patcher pod) st.patches }
        | none => st
      | none => PatchPodCreate.searchNamespaces patcher env pod configmapSidecarName rest st

/-- The loop `for _, configmapSidecarName := range configmapSidecarNames`. -/
def PatchPodCreate.forNames (patcher : SidecarInjectorPatcher) (env : Env) (pod : Pod)
    (config_namespaces : List String) (names : List String) (st : LoopState) : LoopState :=
  names.foldl
    (fun st configmapSidecarName =>
      PatchPodCreate.searchNamespaces patcher env pod configmapSidecarName config_namespaces st)
    st

/-- The candidate namespaces `config_namespaces` built at the start of
`PatchPodCreate`. -/
def PatchPodCreate.config_namespaces (env : Env) (nspace : String) : List String :=
  let config_namespaces := [nspace]
  match getCommonConfigmapNamespace env with
  | .error _ => config_namespaces
  | .ok common_config_namespace => config_namespaces ++ [common_config_namespace]

/-- Source method `PatchPodCreate`, with the record of the `Get` calls it made kept
next to `patches`. -/
def PatchPodCreate.run (patcher : SidecarInjectorPatcher) (env : Env) (nspace : String)
    (pod : Pod) : LoopState :=
  let config_namespaces := PatchPodCreate.config_namespaces env nspace
  let st : LoopState := { patches := [], gets := [] }
  match configmapSidecarNames patcher nspace pod with
  | some names => PatchPodCreate.forNames patcher env pod config_namespaces names st
  | none => st

/-- Source method `PatchPodCreate`: the returned pair `(patches, error)`; `none` is
the nil error. -/
def PatchPodCreate (patcher : SidecarInjectorPatcher) (env : Env) (nspace : String)
    (pod : Pod) : List (PatchOperation PodValue) × Option String :=
  ((PatchPodCreate.run patcher env nspace pod).patches, none)

/-- Source method `PatchPodUpdate`. -/
def PatchPodUpdate (_patcher : SidecarInjectorPatcher) (_nspace : String) (_oldPod _pod : Pod) :
    List (PatchOperation PodValue) × Option String :=
  ([], none)

/-- Source method `PatchPodDelete`. -/
def PatchPodDelete (_patcher : SidecarInjectorPatcher) (_nspace : String) (_pod : Pod) :
    List (PatchOperation PodValue) × Option String :=
  ([], none)

/-! ## Closed-form building blocks -/

/-- The operation `createArrayPatches` emits for a new element that is not the
first element of an initially empty collection. -/
def appendOp {T : Type} (path : String) (item : T) : PatchOperation (ArrayValue T) :=
  { Op := "add", Path := path ++ "/-", Value := ArrayValue.item item }

/-- The operation `createArrayPatches` emits for the first new element when the
existing collection is empty. -/
def establishOp {T : Type} (path : String) (item : T) : PatchOperation (ArrayValue T) :=
  { Op := "add", Path := path, Value := ArrayValue.slice [item] }

/-- The operation emitted for the new element `item` at position `index`. -/
def arrayOp {T : Type} (existing : List T) (path : String) (e : Nat × T) :
    PatchOperation (ArrayValue T) :=
  if e.1 = 0 ∧ existing.length = 0 then establishOp path e.2 else appendOp path e.2

/-- What one iteration of the `range newMap` loop appends. -/
def objectOps (existingMap : GoMap) (path : String) (override : Bool)
    (entry : String × String) : List (PatchOperation ObjectValue) :=
  if !existingMap.contains entry.1 || override then
    [{ Op := if existingMap.contains entry.1 then "replace" else "add",
       Path := path ++ "/" ++ entry.1, Value := ObjectValue.string entry.2 }]
  else []

/-- The operations one template contributes: what `PatchPodCreate.applySidecar`
appends. -/
def sidecarOps (patcher : SidecarInjectorPatcher) (pod : Pod) (sidecar : Sidecar) :
    List (PatchOperation PodValue) :=
  PatchPodCreate.applySidecar patcher pod [] sidecar

/-- The search for `name` goes past namespace `ns`: the `Get` there answers
not-found, or it succeeds with an object that has no entry under `SidecarDataKey`. -/
def passesOver (patcher : SidecarInjectorPatcher) (name ns : String) : Bool :=
  match patcher.K8sClient ns name with
  | .error .notFound => true
  | .error (.other _) => false
  | .ok configmapSidecar => (configmapSidecar.Data.get? patcher.SidecarDataKey).isNone

/-- The `Get` calls made when the namespaces `nss` are fetched in turn for `name`. -/
def getsFor (name : String) (nss : List String) : List (String × String) :=
  nss.map (fun ns => (ns, name))

/-- What the search for one requested name contributes, started from the empty
state: its operations and its `Get` calls. -/
def nameResult (patcher : SidecarInjectorPatcher) (env : Env) (pod : Pod)
    (config_namespaces : List String) (name : String) : LoopState :=
  PatchPodCreate.searchNamespaces patcher env pod name config_namespaces
    { patches := [], gets := [] }

/-! ## Concrete inputs used to evaluate the model -/

/-- A patcher with annotation key "injector/inject", data key "sidecars" and both
overrides off, over the given client. -/
def demoPatcher (client : String → String → Except K8sError ConfigMap) :
    SidecarInjectorPatcher :=
  { K8sClient := client, InjectPrefix := "injector", InjectName := "inject",
    SidecarDataKey := "sidecars", AllowAnnotationOverrides := false,
    AllowLabelOverrides := false }

/-- A pod in namespace "default" without containers, with empty labels, whose only
annotation is the injection annotation with the given value. -/
def demoPod (value : String) : Pod :=
  { Name := "p", GenerateName := "", Namespace := "default",
    Annotations := some [("injector/inject", value)], Labels := some [],
    Spec := { InitContainers := [], Containers := [], Volumes := [], ImagePullSecrets := [] } }

/-- A template with the single container `c`. -/
def demoTemplate : Sidecar :=
  { Name := "t", InitContainers := [], Containers := [Container.mk "c" "img"], Volumes := [],
    ImagePullSecrets := [], Annotations := some [], Labels := some [] }

/-- Shared namespace "injector" from `CONF_NAMESPACE`; the decoder reads the text
"- t" as the list holding `demoTemplate` and fails on anything else. -/
def demoEnv : Env :=
  { CONF_NAMESPACE := "injector", namespaceFile := .error "no such file",
    yamlUnmarshal := fun str => if str = "- t" then (some [demoTemplate], false) else (none, true) }

/-- The YAML text of a list with one template: name `t`, one container `c`. -/
def sidecarYaml : String :=
  "- name: t\n  containers:\n  - name: c\n    image: img\n"

/-- Shared namespace "injector" from `CONF_NAMESPACE`; the decoder gives, for
`sidecarYaml`, the one template it describes without error, and fails with a nil
slice on anything else. -/
def yamlEnv : Env :=
  { CONF_NAMESPACE := "injector", namespaceFile := .error "no such file",
    yamlUnmarshal := fun str =>
      if str = sidecarYaml then
        (some [{ Name := "t", InitContainers := [], Containers := [Container.mk "c" "img"],
                 Volumes := [], ImagePullSecrets := [], Annotations := none, Labels := none }],
          false)
      else (none, true) }

/-- A client without objects. -/
def emptyClient : String → String → Except K8sError ConfigMap :=
  fun _ _ => .error .notFound

/-- A client that rejects the empty object name, as the API client does, and has
no objects. -/
def strictClient : String → String → Except K8sError ConfigMap :=
  fun _ name =>
    if name = "" then .error (.other "resource name may not be empty") else .error .notFound

/-- A client holding, in namespace "default", an object with the empty name that
carries the data key. -/
def emptyNameClient : String → String → Except K8sError ConfigMap :=
  fun ns name =>
    if ns = "default" ∧ name = "" then .ok { Data := some [("sidecars", "- t")] }
    else .error .notFound

/-- A client holding "app" in "default" without the data key, and "app" in "injector"
with it. -/
def keylessClient : String → String → Except K8sError ConfigMap :=
  fun ns name =>
    if name = "app" ∧ ns = "default" then .ok { Data := some [("other", "x")] }
    else if name = "app" ∧ ns = "injector" then .ok { Data := some [("sidecars", sidecarYaml)] }
    else .error .notFound

/-- A client holding "app" only in the shared namespace "injector". -/
def sharedClient : String → String → Except K8sError ConfigMap :=
  fun ns name =>
    if name = "app" ∧ ns = "injector" then .ok { Data := some [("sidecars", "- t")] }
    else .error .notFound

/-- A client whose `Get` of "bad" fails in "default" with an error other than
not-found, and that holds "bad" and "app" in "injector". -/
def failingClient : String → String → Except K8sError ConfigMap :=
  fun ns name =>
    if name = "bad" ∧ ns = "default" then .error (.other "connection refused")
    else if ns = "injector" ∧ (name = "bad" ∨ name = "app") then
      .ok { Data := some [("sidecars", "- t")] }
    else .error .notFound

/-! ## Closed form of the namespace search -/

/-- From the source (lines 155 to 184): the templates that the namespace loop of
`PatchPodCreate` applies for a requested name.  The loop goes past every namespace
that is passed over (not-found, or an object without the data key); at the first
other namespace it stops, with nothing applied when the `Get` failed there, and
otherwise with whatever slice the decoder left for the text under the data key,
the decoder's error being ignored. -/
def appliedTemplates (patcher : SidecarInjectorPatcher) (env : Env)
    (config_namespaces : List String) (name : String) : List Sidecar :=
  match config_namespaces.find? (fun ns => !passesOver patcher name ns) with
  | none => []
  | some ns =>
    match patcher.K8sClient ns name with
    | .error _ => []
    | .ok configmapSidecar =>
      match configmapSidecar.Data.get? patcher.SidecarDataKey with
      | none => []
      | some sidecarsStr => (env.yamlUnmarshal sidecarsStr).1.getD []

/-! ## The result of `PatchPodCreate`, as the specification words it -/

/-- Following the specification (section 4.3): the templates of the configuration
object resolved for a requested name.  The candidate namespaces are walked in
order; not-found moves on to the next namespace; any other fetch error ends the
search without a template; the first object found ends the search (first match
wins): its data field under the configured key is decoded, and a missing field or
a deserialization failure yields zero templates. -/
def specTemplates (patcher : SidecarInjectorPatcher) (env : Env) (name : String) :
    List String → List Sidecar
  | [] => []
  | ns :: rest =>
    match patcher.K8sClient ns name with
    | .error .notFound => specTemplates patcher env name rest
    | .error (.other _) => []
    | .ok configmapSidecar =>
      match configmapSidecar.Data.get? patcher.SidecarDataKey with
      | none => []
      | some sidecarsStr =>
        if (env.yamlUnmarshal sidecarsStr).2 then []
        else (env.yamlUnmarshal sidecarsStr).1.getD []

/-- Following the specification: the operations of one template, field by field in
the fixed order, each against the pod's own field. -/
def templateOps (patcher : SidecarInjectorPatcher) (pod : Pod) (sidecar : Sidecar) :
    List (PatchOperation PodValue) :=
  (createArrayPatches sidecar.InitContainers pod.Spec.InitContainers
      "/spec/initContainers").map (PatchOperation.box PodValue.container)
  ++ (createArrayPatches sidecar.Containers pod.Spec.Containers
      "/spec/containers").map (PatchOperation.box PodValue.container)
  ++ (createArrayPatches sidecar.Volumes pod.Spec.Volumes
      "/spec/volumes").map (PatchOperation.box PodValue.volume)
  ++ (createArrayPatches sidecar.ImagePullSecrets pod.Spec.ImagePullSecrets
      "/spec/imagePullSecrets").map (PatchOperation.box PodValue.localObjectReference)
  ++ (createObjectPatches sidecar.Annotations pod.Annotations
      "/metadata/annotations" patcher.AllowAnnotationOverrides).map
        (PatchOperation.box PodValue.object)
  ++ (createObjectPatches sidecar.Labels pod.Labels
      "/metadata/labels" patcher.AllowLabelOverrides).map (PatchOperation.box PodValue.object)

/-- Following the specification (sections 3 and 4): the patch list, the
concatenation over the requested names in annotation order of the operations of
every template of the object resolved for the name. -/
def specPatchList (patcher : SidecarInjectorPatcher) (env : Env) (nspace : String)
    (pod : Pod) : List (PatchOperation PodValue) :=
  ((configmapSidecarNames patcher nspace pod).getD []).flatMap
    (fun name =>
      (specTemplates patcher env name (PatchPodCreate.config_namespaces env nspace)).flatMap
        (templateOps patcher pod))

/-- The six fixed base paths of `PatchPodCreate`. -/
def basePaths : List String :=
  ["/spec/initContainers", "/spec/containers", "/spec/volumes", "/spec/imagePullSecrets",
   "/metadata/annotations", "/metadata/labels"]

/-- The pod `demoPod "app"` without a label map. -/
def unlabelledPod : Pod :=
  { Name := "p", GenerateName := "", Namespace := "default",
    Annotations := some [("injector/inject", "app")], Labels := none,
    Spec := { InitContainers := [], Containers := [], Volumes := [], ImagePullSecrets := [] } }

/-- The text of a template list whose entry gives a string where the map `labels` is
expected. -/
def mistypedText : String :=
  "- name: t\n  containers:\n  - name: c\n    image: img\n  labels: oops\n"

/-- Shared namespace "injector"; the decoder, on `mistypedText`, reports the type
error of `labels` after storing the rest of the entry, as `encoding/json` does for
a value that does not fit its target; it fails with a nil slice on anything else. -/
def mistypedEnv : Env :=
  { CONF_NAMESPACE := "injector", namespaceFile := .error "no such file",
    yamlUnmarshal := fun str =>
      if str = mistypedText then
        (some [{ Name := "t", InitContainers := [], Containers := [Container.mk "c" "img"],
                 Volumes := [], ImagePullSecrets := [], Annotations := none, Labels := none }],
          true)
      else (none, true) }

/-- A client holding "app" in "default" with `mistypedText` under the data key. -/
def mistypedClient : String → String → Except K8sError ConfigMap :=
  fun ns name =>
    if name = "app" ∧ ns = "default" then .ok { Data := some [("sidecars", mistypedText)] }
    else .error .notFound

/-! ## JSON Pointer and JSON Patch readings used by the claims -/

/-- Replacing every occurrence of the two characters `a b` by `r`, left to right;
`pending` tells that an `a` has been read and not yet written. -/
def rfc6901.replacePair (a b r : Char) (pending : Bool) : List Char → List Char
  | [] => if pending then [a] else []
  | x :: cs =>
    if pending then
      if x = b then r :: rfc6901.replacePair a b r false cs
      else if x = a then a :: rfc6901.replacePair a b r true cs
      else a :: x :: rfc6901.replacePair a b r false cs
    else if x = a then rfc6901.replacePair a b r true cs
    else x :: rfc6901.replacePair a b r false cs

/-- RFC 6901, section 4: a reference token is decoded by first turning every "~1"
into "/" and then every "~0" into "~". -/
def rfc6901.unescape (token : List Char) : List Char :=
  rfc6901.replacePair '~' '0' '~' false (rfc6901.replacePair '~' '1' '/' false token)

/-- RFC 6901, section 3: the reference tokens of a JSON pointer.  The empty string
has no token; any other pointer is a sequence of tokens each prefixed by "/";
`none` when the string is not a pointer. -/
def rfc6901.tokens (pointer : String) : Option (List String) :=
  match pointer.data with
  | [] => some []
  | c :: cs =>
    if c = '/' then
      some ((strings.splitChars '/' cs).map (fun token => String.mk (rfc6901.unescape token)))
    else none

/-- The JSON Patch reading of the array claims, for the array at `base`; the state
is the array, `none` while it does not exist.  An "add" at `base` with an array
value sets the array; an "add" at the append path of `base` with an element
appends it and needs the array to exist; anything else is rejected (`none`). -/
def applyArrayOp {T : Type} (base : String) (arr : Option (List T))
    (op : PatchOperation (ArrayValue T)) : Option (Option (List T)) :=
  if op.Op = "add" ∧ op.Path = base then
    match op.Value with
    | ArrayValue.slice xs => some (some xs)
    | ArrayValue.item _ => none
  else if op.Op = "add" ∧ op.Path = base ++ "/-" then
    match arr, op.Value with
    | some a, ArrayValue.item x => some (some (a ++ [x]))
    | _, _ => none
  else none

/-- Applying operations in order, stopping at the first one rejected. -/
def applyArrayOps {T : Type} (base : String) :
    List (PatchOperation (ArrayValue T)) → Option (List T) → Option (Option (List T))
  | [], arr => some arr
  | op :: ops, arr =>
    match applyArrayOp base arr op with
    | none => none
    | some arr' => applyArrayOps base ops arr'

/-- The operations of a returned list that target the volumes array, with their
typed values. -/
def volumeOpsOf (patches : List (PatchOperation PodValue)) :
    List (PatchOperation (ArrayValue Volume)) :=
  patches.filterMap (fun op =>
    match op.Value with
    | PodValue.volume v =>
      if op.Path = "/spec/volumes" ∨ op.Path = "/spec/volumes" ++ "/-" then
        some { Op := op.Op, Path := op.Path, Value := v }
      else none
    | _ => none)

/-- A pod in "default" with the container `main`, no volume, and the injection
annotation "app". -/
def webPod : Pod :=
  { Name := "web", GenerateName := "", Namespace := "default",
    Annotations := some [("injector/inject", "app")], Labels := some [("app", "web")],
    Spec := { InitContainers := [], Containers := [Container.mk "main" "img"], Volumes := [],
              ImagePullSecrets := [] } }

/-- A decoder that reads the text "- a - b" as two templates, each with one
container and one volume. -/
def twoTemplatesEnv : Env :=
  { CONF_NAMESPACE := "injector", namespaceFile := .error "no such file",
    yamlUnmarshal := fun str =>
      if str = "- a - b" then
        (some [{ Name := "a", InitContainers := [], Containers := [Container.mk "a" "img-a"],
                 Volumes := [Volume.mk "vol-a"], ImagePullSecrets := [],
                 Annotations := none, Labels := none },
               { Name := "b", InitContainers := [], Containers := [Container.mk "b" "img-b"],
                 Volumes := [Volume.mk "vol-b"], ImagePullSecrets := [],
                 Annotations := none, Labels := none }],
          false)
      else (none, true) }

/-- A client holding "app" in "default", with the text "- a - b" under the data key. -/
def twoTemplatesClient : String → String → Except K8sError ConfigMap :=
  fun ns name =>
    if name = "app" ∧ ns = "default" then .ok { Data := some [("sidecars", "- a - b")] }
    else .error .notFound

/-! # Theorems -/

/-! ## Closed forms of the two synthesizers -/



/-- A loop that only appends to its accumulator computes the concatenation of
what each iteration appends. -/
theorem foldl_append_flatMap {α β : Type} (step : List β → α → List β) (g : α → List β)
    (hstep : ∀ acc x, step acc x = acc ++ g x) (l : List α) (acc : List β) :
    l.foldl step acc = acc ++ l.flatMap g := by
  induction l generalizing acc with
  | nil => simp
  | cons x xs ih => simp [List.foldl_cons, ih, hstep, List.flatMap_cons]

theorem createArrayPatches_step_eq {T : Type} (existing : List T) (path : String)
    (acc : List (PatchOperation (ArrayValue T))) (e : Nat × T) :
    createArrayPatches.step existing path acc e = acc ++ [arrayOp existing path e] := by
  rcases e with ⟨n, x⟩
  cases n <;> cases existing <;>
    simp [createArrayPatches.step, arrayOp, appendOp, establishOp]

theorem createArrayPatches_eq_map {T : Type} (new existing : List T) (path : String) :
    createArrayPatches new existing path = new.enum.map (arrayOp existing path) := by
  unfold createArrayPatches
  rw [foldl_append_flatMap _ _ (createArrayPatches_step_eq existing path)]
  induction new.enum with
  | nil => simp
  | cons x xs ih => simpa [List.flatMap_cons] using ih

theorem map_arrayOp_enumFrom_succ {T : Type} (existing : List T) (path : String)
    (l : List T) (n : Nat) :
    (l.enumFrom (n + 1)).map (arrayOp existing path) = l.map (appendOp path) := by
  induction l generalizing n with
  | nil => simp
  | cons x xs ih => simp [List.enumFrom_cons, ih, arrayOp]

theorem map_arrayOp_enumFrom_cons {T : Type} (e : T) (es : List T) (path : String)
    (l : List T) (n : Nat) :
    (l.enumFrom n).map (arrayOp (e :: es) path) = l.map (appendOp path) := by
  induction l generalizing n with
  | nil => simp
  | cons x xs ih => simp [List.enumFrom_cons, ih, arrayOp]

/-- Closed form: the first element of an initially empty collection. -/
theorem createArrayPatches_nil_existing {T : Type} (x : T) (xs : List T) (path : String) :
    createArrayPatches (x :: xs) [] path = establishOp path x :: xs.map (appendOp path) := by
  rw [createArrayPatches_eq_map]
  simp [List.enum, List.enumFrom_cons, map_arrayOp_enumFrom_succ, arrayOp]

/-- Closed form: a non-empty existing collection. -/
theorem createArrayPatches_cons_existing {T : Type} (new : List T) (e : T) (es : List T)
    (path : String) :
    createArrayPatches new (e :: es) path = new.map (appendOp path) := by
  rw [createArrayPatches_eq_map]
  simp [List.enum, map_arrayOp_enumFrom_cons]

theorem createArrayPatches_length {T : Type} (new existing : List T) (path : String) :
    (createArrayPatches new existing path).length = new.length := by
  rw [createArrayPatches_eq_map]
  simp

theorem createObjectPatches_step_eq (existingMap : GoMap) (path : String) (override : Bool)
    (acc : List (PatchOperation ObjectValue)) (e : String × String) :
    createObjectPatches.step existingMap path override acc e
      = acc ++ objectOps existingMap path override e := by
  unfold createObjectPatches.step objectOps
  cases hc : existingMap.contains e.1 <;> cases override <;> simp [hc]

theorem createObjectPatches_eq_flatMap (newMap : GoMap) (es : List (String × String))
    (path : String) (override : Bool) :
    createObjectPatches newMap (some es) path override
      = newMap.entries.flatMap (objectOps (some es) path override) := by
  unfold createObjectPatches
  simp only
  rw [foldl_append_flatMap _ _ (createObjectPatches_step_eq (some es) path override)]
  simp

theorem flatMap_objectOps_false (existingMap : GoMap) (path : String)
    (l : List (String × String)) :
    l.flatMap (objectOps existingMap path false)
      = (l.filter (fun e => !existingMap.contains e.1)).map
          (fun e => { Op := "add", Path := path ++ "/" ++ e.1,
                      Value := ObjectValue.string e.2 }) := by
  induction l with
  | nil => simp
  | cons x xs ih =>
    rw [List.flatMap_cons, ih]
    cases hx : existingMap.contains x.1 <;> simp [objectOps, List.filter_cons, hx]

theorem flatMap_objectOps_true (existingMap : GoMap) (path : String)
    (l : List (String × String)) :
    l.flatMap (objectOps existingMap path true)
      = l.map (fun e => { Op := if existingMap.contains e.1 then "replace" else "add",
                          Path := path ++ "/" ++ e.1, Value := ObjectValue.string e.2 }) := by
  induction l with
  | nil => simp
  | cons x xs ih =>
    rw [List.flatMap_cons, ih]
    simp [objectOps]

/-- Appending a key to a fixed base path is injective in the key. -/
theorem keyPath_injective (path k₁ k₂ : String) (h : path ++ "/" ++ k₁ = path ++ "/" ++ k₂) :
    k₁ = k₂ := by
  have h2 := congrArg String.data h
  simp only [String.data_append, List.append_cancel_left_eq] at h2
  exact String.ext h2

theorem GoMap_contains_iff (m : GoMap) (key : String) :
    m.contains key = true ↔ key ∈ m.keys := by
  cases m with
  | none => simp [GoMap.contains, GoMap.get?, GoMap.keys, GoMap.entries]
  | some es =>
    unfold GoMap.contains GoMap.get? GoMap.keys GoMap.entries
    simp

theorem GoMap_contains_eq_decide (m : GoMap) (key : String) :
    m.contains key = decide (key ∈ m.keys) := by
  cases h : m.contains key
  · have : ¬ key ∈ m.keys := fun hk => by
      rw [← GoMap_contains_iff] at hk
      simp [h] at hk
    simp [this]
  · simp [(GoMap_contains_iff m key).1 h]

/-- With distinct keys, exactly one element of a mapped entry list has the path of a
given entry. -/
theorem filter_path_of_nodup (path : String) (f : String × String → PatchOperation ObjectValue)
    (hf : ∀ e, (f e).Path = path ++ "/" ++ e.1) (l : List (String × String))
    (hnd : (l.map Prod.fst).Nodup) (key value : String) (hmem : (key, value) ∈ l) :
    (l.map f).filter (fun op => op.Path == path ++ "/" ++ key) = [f (key, value)] := by
  induction l with
  | nil => simp at hmem
  | cons x xs ih =>
    simp only [List.map_cons, List.nodup_cons] at hnd
    rcases List.mem_cons.1 hmem with h | h
    · subst h
      have hrest : (xs.map f).filter (fun op => op.Path == path ++ "/" ++ key) = [] := by
        rw [List.filter_eq_nil_iff]
        intro op hop
        obtain ⟨e, he, rfl⟩ := List.mem_map.1 hop
        intro hp
        have hp2 : (f e).Path = path ++ "/" ++ key := by simpa using hp
        rw [hf] at hp2
        have hk := keyPath_injective _ _ _ hp2
        exact hnd.1 (List.mem_map.2 ⟨e, he, hk⟩)
      simp [List.filter_cons, hf, hrest]
    · have hne : x.1 ≠ key := by
        intro hx
        exact hnd.1 (List.mem_map.2 ⟨(key, value), h, hx.symm⟩)
      have hpne : ¬ (path ++ "/" ++ x.1 = path ++ "/" ++ key) :=
        fun hp => hne (keyPath_injective _ _ _ hp)
      simp [List.filter_cons, hf, hpne, ih hnd.2 h]

/-! ## Array patches -/

/-- C1: `createArrayPatches` returns exactly one operation per new element, in the
order of the new collection, every one with op "add".  With an empty existing
collection the first operation is at the base path with the one-element array as
value and every later one is at the append path (base, a slash, a dash) with the
bare element; with a non-empty existing collection every operation is at the
append path with the bare element. -/
theorem C1_createArrayPatches_one_add_per_element {T : Type}
    (newCollection existingCollection : List T) (path : String) :
    (createArrayPatches newCollection existingCollection path).length = newCollection.length
    ∧ (createArrayPatches newCollection existingCollection path).map (fun p => p.Op)
        = List.replicate newCollection.length "add"
    ∧ (∀ (x : T) (xs : List T), createArrayPatches (x :: xs) [] path
        = { Op := "add", Path := path, Value := ArrayValue.slice [x] }
          :: xs.map (fun y => { Op := "add", Path := path ++ "/-", Value := ArrayValue.item y }))
    ∧ (∀ (e : T) (es : List T), createArrayPatches newCollection (e :: es) path
        = newCollection.map
            (fun y => { Op := "add", Path := path ++ "/-", Value := ArrayValue.item y })) := by
  refine ⟨createArrayPatches_length _ _ _, ?_, ?_, ?_⟩
  · rw [createArrayPatches_eq_map, List.map_map]
    have hop : ∀ e : Nat × T, (arrayOp existingCollection path e).Op = "add" := by
      intro e
      unfold arrayOp
      split <;> rfl
    rw [List.eq_replicate_iff]
    refine ⟨by simp, ?_⟩
    intro b hb
    obtain ⟨e, _, rfl⟩ := List.mem_map.1 hb
    exact hop e
  · intro x xs
    exact createArrayPatches_nil_existing x xs path
  · intro e es
    exact createArrayPatches_cons_existing newCollection e es path

/-- C2 (refuted as stated): for an empty existing container list and the two
template containers `a` and `b`, the containers operations are two, not the single
"add" of the two-element array. -/
theorem C2_counterexample :
    createArrayPatches [Container.mk "a" "img-a", Container.mk "b" "img-b"] []
        "/spec/containers"
      ≠ [{ Op := "add", Path := "/spec/containers",
           Value := ArrayValue.slice [Container.mk "a" "img-a", Container.mk "b" "img-b"] }]
    ∧ (createArrayPatches [Container.mk "a" "img-a", Container.mk "b" "img-b"] []
        "/spec/containers").length = 2 := by
  decide

/-- C2 (amended): for a pod with zero existing containers and a template that
defines exactly the two containers `c₁`, `c₂`, the containers operations are
exactly two "add" operations: the first at "/spec/containers" with the
one-element array of `c₁`, the second at the append path of "/spec/containers"
with the bare `c₂`. -/
theorem C2_empty_pod_two_containers (pod : Pod) (sidecar : Sidecar) (c₁ c₂ : Container)
    (hpod : pod.Spec.Containers = []) (hsidecar : sidecar.Containers = [c₁, c₂]) :
    createArrayPatches sidecar.Containers pod.Spec.Containers "/spec/containers"
      = [{ Op := "add", Path := "/spec/containers", Value := ArrayValue.slice [c₁] },
         { Op := "add", Path := "/spec/containers/-", Value := ArrayValue.item c₂ }] := by
  rw [hpod, hsidecar, createArrayPatches_nil_existing]
  rfl

/-- C2 (amended), at a pod without containers and a template with containers `a`, `b`. -/
theorem C2_empty_pod_two_containers_witness :
    createArrayPatches
        (Sidecar.mk "t" [] [Container.mk "a" "img-a", Container.mk "b" "img-b"] [] [] none
          none).Containers
        (Pod.mk "p" "" "ns" none none (PodSpec.mk [] [] [] [])).Spec.Containers
        "/spec/containers"
      = [{ Op := "add", Path := "/spec/containers",
           Value := ArrayValue.slice [Container.mk "a" "img-a"] },
         { Op := "add", Path := "/spec/containers/-",
           Value := ArrayValue.item (Container.mk "b" "img-b") }] :=
  C2_empty_pod_two_containers _ _ _ _ rfl rfl

/-! ## Map patches -/

/-- C3: with a nil existing map, `createObjectPatches` returns exactly one
operation, whatever the new map (nil, empty or not) and the override flag: op
"add", path the base path, value the entire new map. -/
theorem C3_createObjectPatches_nil_existing (newMap : GoMap) (path : String)
    (override : Bool) :
    createObjectPatches newMap none path override
      = [{ Op := "add", Path := path, Value := ObjectValue.map newMap }] := by
  rfl

/-- C4: with override disabled and a non-nil existing map, `createObjectPatches`
emits, in `range` order, one "add" at base + "/" + key with the new value for
each entry of the new map whose key is absent from the existing map, and nothing
else: a key has an operation if and only if it is a key of the new map absent from
the existing map, and no operation is a "replace". -/
theorem C4_createObjectPatches_no_override (newMap : GoMap) (es : List (String × String))
    (path : String) :
    createObjectPatches newMap (some es) path false
      = (newMap.entries.filter (fun e => decide (e.1 ∉ GoMap.keys (some es)))).map
          (fun e => { Op := "add", Path := path ++ "/" ++ e.1,
                      Value := ObjectValue.string e.2 })
    ∧ (∀ key : String,
        (∃ op ∈ createObjectPatches newMap (some es) path false,
            op.Path = path ++ "/" ++ key)
          ↔ (key ∈ newMap.keys ∧ key ∉ GoMap.keys (some es)))
    ∧ (¬ ∃ op ∈ createObjectPatches newMap (some es) path false, op.Op = "replace")
    ∧ (createObjectPatches newMap (some es) path false).map (fun op => op.Op)
        = List.replicate (createObjectPatches newMap (some es) path false).length "add" := by
  have hclosed : createObjectPatches newMap (some es) path false
      = (newMap.entries.filter (fun e => decide (e.1 ∉ GoMap.keys (some es)))).map
          (fun e => { Op := "add", Path := path ++ "/" ++ e.1,
                      Value := ObjectValue.string e.2 }) := by
    rw [createObjectPatches_eq_flatMap, flatMap_objectOps_false]
    congr 2
    funext e
    rw [GoMap_contains_eq_decide]
    simp
  refine ⟨hclosed, ?_, ?_, ?_⟩
  · intro key
    rw [hclosed]
    constructor
    · rintro ⟨op, hop, hpath⟩
      obtain ⟨e, he, rfl⟩ := List.mem_map.1 hop
      have hk : e.1 = key := keyPath_injective _ _ _ hpath
      rw [List.mem_filter] at he
      subst hk
      exact ⟨List.mem_map.2 ⟨e, he.1, rfl⟩, by simpa using he.2⟩
    · rintro ⟨hnew, hold⟩
      obtain ⟨e, he, rfl⟩ := List.mem_map.1 hnew
      exact ⟨_, List.mem_map.2 ⟨e, List.mem_filter.2 ⟨he, by simpa using hold⟩, rfl⟩, rfl⟩
  · rw [hclosed]
    rintro ⟨op, hop, hrep⟩
    obtain ⟨e, _, rfl⟩ := List.mem_map.1 hop
    have hadd : ("add" : String) ≠ "replace" := by decide
    exact hadd hrep
  · rw [hclosed, List.eq_replicate_iff]
    refine ⟨by simp, ?_⟩
    intro b hb
    simp only [List.map_map, List.mem_map] at hb
    obtain ⟨e, _, rfl⟩ := hb
    rfl

/-- C4 at the template map `a ↦ "new", b ↦ "x"` over the existing map `a ↦ "old"`:
nothing is emitted for `a`, and `b` is added. -/
theorem C4_createObjectPatches_no_override_witness :
    createObjectPatches (some [("a", "new"), ("b", "x")]) (some [("a", "old")])
        "/metadata/annotations" false
      = [{ Op := "add", Path := "/metadata/annotations/b", Value := ObjectValue.string "x" }]
    ∧ createObjectPatches (some [("a", "new")]) (some [("a", "old")])
        "/metadata/annotations" false = [] :=
  ⟨(C4_createObjectPatches_no_override (some [("a", "new"), ("b", "x")]) [("a", "old")]
      "/metadata/annotations").1.trans (by decide),
   (C4_createObjectPatches_no_override (some [("a", "new")]) [("a", "old")]
      "/metadata/annotations").1.trans (by decide)⟩

/-- C5: with override enabled and a non-nil existing map, `createObjectPatches`
emits exactly one operation per entry of the new map, in `range` order, at
base + "/" + key with the new value: "replace" when the key is in the existing
map, "add" when it is not.  So there are as many operations as keys, and when the
keys are distinct (as in a Go map) exactly one operation has the path of a given
key. -/
theorem C5_createObjectPatches_override (newMap : GoMap) (es : List (String × String))
    (path : String) :
    createObjectPatches newMap (some es) path true
      = newMap.entries.map
          (fun e => { Op := if e.1 ∈ GoMap.keys (some es) then "replace" else "add",
                      Path := path ++ "/" ++ e.1, Value := ObjectValue.string e.2 })
    ∧ (createObjectPatches newMap (some es) path true).length = newMap.keys.length
    ∧ (∀ key value : String, newMap.keys.Nodup → (key, value) ∈ newMap.entries →
        (createObjectPatches newMap (some es) path true).filter
            (fun op => op.Path == path ++ "/" ++ key)
          = [{ Op := if key ∈ GoMap.keys (some es) then "replace" else "add",
               Path := path ++ "/" ++ key, Value := ObjectValue.string value }]) := by
  have hclosed : createObjectPatches newMap (some es) path true
      = newMap.entries.map
          (fun e => { Op := if e.1 ∈ GoMap.keys (some es) then "replace" else "add",
                      Path := path ++ "/" ++ e.1, Value := ObjectValue.string e.2 }) := by
    rw [createObjectPatches_eq_flatMap, flatMap_objectOps_true]
    congr 1
    funext e
    rw [GoMap_contains_eq_decide]
    simp
  refine ⟨hclosed, ?_, ?_⟩
  · rw [hclosed]
    simp [GoMap.keys]
  · intro key value hnd hmem
    rw [hclosed]
    exact filter_path_of_nodup path _ (fun _ => rfl) newMap.entries hnd key value hmem

/-- C5 at the template map `a ↦ "new", b ↦ "x"` over the existing map `a ↦ "old"`:
the only operation for key `a` is the "replace" with the template value. -/
theorem C5_createObjectPatches_override_witness :
    (GoMap.keys (some [("a", "new"), ("b", "x")])).Nodup
    ∧ ("a", "new") ∈ GoMap.entries (some [("a", "new"), ("b", "x")])
    ∧ (createObjectPatches (some [("a", "new"), ("b", "x")]) (some [("a", "old")])
        "/metadata/annotations" true).filter
          (fun op => op.Path == "/metadata/annotations" ++ "/" ++ "a")
      = [{ Op := "replace", Path := "/metadata/annotations/a",
           Value := ObjectValue.string "new" }] :=
  ⟨by decide, by decide,
   ((C5_createObjectPatches_override (some [("a", "new"), ("b", "x")]) [("a", "old")]
      "/metadata/annotations").2.2 "a" "new" (by decide) (by decide)).trans (by decide)⟩

/-! ## Library functions -/

theorem splitChars_ne_nil (sep : Char) (l : List Char) : strings.splitChars sep l ≠ [] := by
  cases l with
  | nil => simp [strings.splitChars]
  | cons c cs =>
    unfold strings.splitChars
    split
    · simp
    · split <;> simp

theorem intercalate_splitChars (sep : Char) (l : List Char) :
    List.intercalate [sep] (strings.splitChars sep l) = l := by
  induction l with
  | nil => simp [strings.splitChars, List.intercalate]
  | cons c cs ih =>
    unfold strings.splitChars
    by_cases hc : c = sep
    · rw [if_pos hc]
      rcases hsplit : strings.splitChars sep cs with _ | ⟨piece, pieces⟩
      · exact absurd hsplit (splitChars_ne_nil sep cs)
      · rw [hsplit] at ih
        rw [← ih, hc]
        simp [List.intercalate, List.intersperse]
    · rw [if_neg hc]
      rcases hsplit : strings.splitChars sep cs with _ | ⟨piece, pieces⟩
      · exact absurd hsplit (splitChars_ne_nil sep cs)
      · rw [hsplit] at ih
        rw [← ih]
        cases pieces <;> simp [List.intercalate, List.intersperse]

theorem not_mem_of_mem_splitChars (sep : Char) (l piece : List Char)
    (h : piece ∈ strings.splitChars sep l) : sep ∉ piece := by
  induction l generalizing piece with
  | nil =>
    simp only [strings.splitChars, List.mem_singleton] at h
    simp [h]
  | cons c cs ih =>
    unfold strings.splitChars at h
    by_cases hc : c = sep
    · rw [if_pos hc] at h
      rcases List.mem_cons.1 h with h | h
      · simp [h]
      · exact ih piece h
    · rw [if_neg hc] at h
      rcases hsplit : strings.splitChars sep cs with _ | ⟨q, qs⟩
      · exact absurd hsplit (splitChars_ne_nil sep cs)
      · rw [hsplit] at h ih
        rcases List.mem_cons.1 h with h | h
        · subst h
          have hq := ih q (List.mem_cons_self _ _)
          simp only [List.mem_cons, not_or]
          exact ⟨fun hs => hc hs.symm, hq⟩
        · exact ih piece (List.mem_cons_of_mem _ h)

theorem length_splitChars (sep : Char) (l : List Char) :
    (strings.splitChars sep l).length = l.count sep + 1 := by
  induction l with
  | nil => simp [strings.splitChars]
  | cons c cs ih =>
    unfold strings.splitChars
    by_cases hc : c = sep
    · rw [if_pos hc]
      simp [ih, hc]
    · rw [if_neg hc]
      rcases hsplit : strings.splitChars sep cs with _ | ⟨q, qs⟩
      · exact absurd hsplit (splitChars_ne_nil sep cs)
      · rw [hsplit] at ih
        have hne : (c == sep) = false := by simpa using hc
        simp only [List.length_cons] at ih ⊢
        rw [List.count_cons, hne]
        simpa using ih

theorem lo_Map_eq_map {T R : Type} (l : List T) (f : T → R) :
    lo.Map l (fun part _ => f part) = l.map f := by
  unfold lo.Map List.enum
  generalize 0 = n
  induction l generalizing n with
  | nil => rfl
  | cons x xs ih => simp [List.enumFrom_cons, ih]

theorem rdropWhile_append_rtakeWhile {α : Type} (p : α → Bool) (l : List α) :
    l.rdropWhile p ++ l.rtakeWhile p = l := by
  have h : (l.reverse.takeWhile p ++ l.reverse.dropWhile p).reverse = l.reverse.reverse :=
    congrArg List.reverse (List.takeWhile_append_dropWhile p l.reverse)
  rw [List.reverse_append, List.reverse_reverse] at h
  exact h

theorem head?_rdropWhile_dropWhile_not {α : Type} (p : α → Bool) (l : List α) (c : α)
    (h : ((l.dropWhile p).rdropWhile p).head? = some c) : p c = false := by
  have hpre : (l.dropWhile p).rdropWhile p <+: l.dropWhile p := List.rdropWhile_prefix p _
  obtain ⟨t, ht⟩ := hpre
  have hnot := List.head?_dropWhile_not p l
  rw [← ht] at hnot
  cases hr : (l.dropWhile p).rdropWhile p with
  | nil => rw [hr] at h; simp at h
  | cons x xs =>
    rw [hr] at h hnot
    simp only [List.head?_cons, Option.some.injEq] at h
    subst h
    simpa using hnot

theorem getLast?_rdropWhile_not {α : Type} (p : α → Bool) (l : List α) (c : α)
    (h : (l.rdropWhile p).getLast? = some c) : p c = false := by
  have hne : l.rdropWhile p ≠ [] := by
    intro hnil
    rw [hnil] at h
    simp at h
  have hlast := List.rdropWhile_last_not p l hne
  rw [List.getLast?_eq_getLast _ hne] at h
  simp only [Option.some.injEq] at h
  subst h
  simpa using hlast

/-- What `strings.TrimSpace` returns: the string without a prefix and a suffix of
white space, whose first and last characters are not white space. -/
theorem TrimSpace_spec (s : String) :
    (∃ pre suf : List Char,
      s.data = pre ++ (strings.TrimSpace s).data ++ suf
      ∧ pre.all unicode.IsSpace = true ∧ suf.all unicode.IsSpace = true)
    ∧ (∀ c, (strings.TrimSpace s).data.head? = some c → unicode.IsSpace c = false)
    ∧ (∀ c, (strings.TrimSpace s).data.getLast? = some c → unicode.IsSpace c = false) := by
  refine ⟨⟨s.data.takeWhile unicode.IsSpace,
      (s.data.dropWhile unicode.IsSpace).rtakeWhile unicode.IsSpace, ?_, ?_, ?_⟩, ?_, ?_⟩
  · simp only [strings.TrimSpace]
    rw [List.append_assoc, rdropWhile_append_rtakeWhile, List.takeWhile_append_dropWhile]
  · rw [List.all_eq_true]
    intro c hc
    exact List.mem_takeWhile_imp hc
  · rw [List.all_eq_true]
    intro c hc
    exact List.mem_rtakeWhile_imp hc
  · intro c hc
    exact head?_rdropWhile_dropWhile_not unicode.IsSpace s.data c hc
  · intro c hc
    exact getLast?_rdropWhile_not unicode.IsSpace _ c hc

/-- The trimmed string is empty exactly when the string is all white space. -/
theorem TrimSpace_eq_empty_iff (s : String) :
    strings.TrimSpace s = "" ↔ s.data.all unicode.IsSpace = true := by
  have hdata : strings.TrimSpace s = "" ↔ (strings.TrimSpace s).data = [] := by
    constructor
    · intro h
      rw [h]
    · intro h
      exact String.ext h
  rw [hdata, List.all_eq_true]
  simp only [strings.TrimSpace]
  rw [List.rdropWhile_eq_nil_iff]
  constructor
  · intro h c hc
    by_contra hsp
    have hmem : ∀ l : List Char, c ∈ l → c ∈ l.dropWhile unicode.IsSpace := by
      intro l
      induction l with
      | nil => simp
      | cons x xs ih =>
        intro hx
        rw [List.dropWhile_cons]
        split
        · rename_i hpx
          rcases List.mem_cons.1 hx with h1 | h1
          · subst h1
            exact absurd hpx hsp
          · exact ih h1
        · exact hx
    exact hsp (h c (hmem s.data hc))
  · intro h c hc
    exact h c ((List.dropWhile_sublist _).subset hc)

/-! ## Annotation resolver -/

theorem configmapSidecarNames_of_get (patcher : SidecarInjectorPatcher) (nspace : String)
    (pod : Pod) (v : String)
    (h : pod.Annotations.get? ( sideCarInjectionAnnotation patcher) = some v) :
    configmapSidecarNames patcher nspace pod
      = some ((strings.Split v ',').map strings.TrimSpace) := by
  have hann : (if pod.Annotations.isSome then pod.Annotations else some []) = pod.Annotations := by
    cases hA : pod.Annotations with
    | none => rw [hA] at h; simp [GoMap.get?] at h
    | some es => simp
  unfold configmapSidecarNames
  simp only [hann, h, lo_Map_eq_map]
  have hlen : ((strings.Split v ',').map strings.TrimSpace).length > 0 := by
    have := splitChars_ne_nil ',' v.data
    simp only [strings.Split, List.length_map]
    exact List.length_pos.2 this
  rw [if_pos hlen]

theorem configmapSidecarNames_of_absent (patcher : SidecarInjectorPatcher) (nspace : String)
    (pod : Pod) (h : pod.Annotations.get? ( sideCarInjectionAnnotation patcher) = none) :
    configmapSidecarNames patcher nspace pod = none := by
  have hann : GoMap.get? (if pod.Annotations.isSome then pod.Annotations else some [])
      ( sideCarInjectionAnnotation patcher) = none := by
    cases hA : pod.Annotations with
    | none => simp [GoMap.get?]
    | some es => rw [hA] at h; simpa using h
  unfold configmapSidecarNames
  simp only [hann]

/-- C6: when the pod carries the injection annotation with value `v`,
`configmapSidecarNames` returns the trimmed comma-separated pieces of `v` in their
order, one per piece, duplicates kept.  The pieces are comma-free, joined by
commas they give back `v`, there is one more piece than commas, and trimming a
piece removes a white-space prefix and suffix and leaves no white space at either
end. -/
theorem C6_configmapSidecarNames_trimmed_pieces (patcher : SidecarInjectorPatcher)
    (nspace : String) (pod : Pod) (v : String)
    (h : pod.Annotations.get? ( sideCarInjectionAnnotation patcher) = some v) :
    configmapSidecarNames patcher nspace pod
      = some ((strings.Split v ',').map strings.TrimSpace)
    ∧ List.intercalate [','] ((strings.Split v ',').map String.data) = v.data
    ∧ (∀ piece ∈ strings.Split v ',', ',' ∉ piece.data)
    ∧ (strings.Split v ',').length = v.data.count ',' + 1
    ∧ (∀ piece : String,
        (∃ pre suf : List Char,
          piece.data = pre ++ (strings.TrimSpace piece).data ++ suf
          ∧ pre.all unicode.IsSpace = true ∧ suf.all unicode.IsSpace = true)
        ∧ (∀ c, (strings.TrimSpace piece).data.head? = some c → unicode.IsSpace c = false)
        ∧ (∀ c, (strings.TrimSpace piece).data.getLast? = some c →
            unicode.IsSpace c = false)) := by
  refine ⟨configmapSidecarNames_of_get patcher nspace pod v h, ?_, ?_, ?_, TrimSpace_spec⟩
  · have hmap : (strings.Split v ',').map String.data = strings.splitChars ',' v.data := by
      simp only [strings.Split, List.map_map]
      exact List.map_id _
    rw [hmap, intercalate_splitChars]
  · intro piece hp
    simp only [strings.Split, List.mem_map] at hp
    obtain ⟨l, hl, rfl⟩ := hp
    exact not_mem_of_mem_splitChars ',' v.data l hl
  · simp [strings.Split, length_splitChars]

/-- C6 at the annotation value "app-sidecar, other-sidecar" (and, for the
duplicates, "a, b ,a"). -/
theorem C6_configmapSidecarNames_trimmed_pieces_witness :
    configmapSidecarNames (demoPatcher emptyClient) "default"
        (demoPod "app-sidecar, other-sidecar")
      = some ["app-sidecar", "other-sidecar"]
    ∧ configmapSidecarNames (demoPatcher emptyClient) "default" (demoPod "a, b ,a")
      = some ["a", "b", "a"] :=
  ⟨(C6_configmapSidecarNames_trimmed_pieces (demoPatcher emptyClient) "default"
      (demoPod "app-sidecar, other-sidecar") "app-sidecar, other-sidecar"
      (by decide)).1.trans (by decide),
   (C6_configmapSidecarNames_trimmed_pieces (demoPatcher emptyClient) "default"
      (demoPod "a, b ,a") "a, b ,a" (by decide)).1.trans (by decide)⟩

/-- C7 (refuted as stated): for the annotation values "a,,b" and "a, " the empty
piece is returned as an empty name. -/
theorem C7_counterexample :
    configmapSidecarNames (demoPatcher emptyClient) "default" (demoPod "a,,b")
      = some ["a", "", "b"]
    ∧ configmapSidecarNames (demoPatcher emptyClient) "default" (demoPod "a, ")
      = some ["a", ""] := by
  decide

/-- C7 (amended): for a pod carrying a non-empty injection annotation value `v`,
`configmapSidecarNames` returns one name per comma-separated piece of `v`; every
name is its piece trimmed, has no white space at either end, and is the empty
string exactly when its piece is empty or all white space (such a piece is
returned as an empty name, not dropped). -/
theorem C7_names_trimmed_maybe_empty (patcher : SidecarInjectorPatcher) (nspace : String)
    (pod : Pod) (v : String)
    (h : pod.Annotations.get? ( sideCarInjectionAnnotation patcher) = some v) :
    v ≠ "" →
    ∃ names : List String,
      configmapSidecarNames patcher nspace pod = some names
      ∧ List.Forall₂
          (fun name piece =>
            name = strings.TrimSpace piece
            ∧ (name = "" ↔ piece.data.all unicode.IsSpace = true)
            ∧ (∀ c, name.data.head? = some c → unicode.IsSpace c = false)
            ∧ (∀ c, name.data.getLast? = some c → unicode.IsSpace c = false))
          names (strings.Split v ',') := by
  intro _
  refine ⟨_, configmapSidecarNames_of_get patcher nspace pod v h, ?_⟩
  rw [List.forall₂_map_left_iff, List.forall₂_same]
  intro piece _
  exact ⟨rfl, TrimSpace_eq_empty_iff piece, (TrimSpace_spec piece).2.1,
    (TrimSpace_spec piece).2.2⟩

/-- C7 (amended) at the annotation value "a, ,b ": the names are "a", "" and "b". -/
theorem C7_names_trimmed_maybe_empty_witness :
    ∃ names : List String,
      configmapSidecarNames (demoPatcher emptyClient) "default" (demoPod "a, ,b ")
        = some names
      ∧ List.Forall₂
          (fun name piece =>
            name = strings.TrimSpace piece
            ∧ (name = "" ↔ piece.data.all unicode.IsSpace = true)
            ∧ (∀ c, name.data.head? = some c → unicode.IsSpace c = false)
            ∧ (∀ c, name.data.getLast? = some c → unicode.IsSpace c = false))
          names (strings.Split "a, ,b " ',') :=
  C7_names_trimmed_maybe_empty (demoPatcher emptyClient) "default" (demoPod "a, ,b ")
    "a, ,b " (by decide) (by decide)

/-! ## Template loader -/

theorem applySidecar_eq (patcher : SidecarInjectorPatcher) (pod : Pod)
    (patches : List (PatchOperation PodValue)) (sidecar : Sidecar) :
    PatchPodCreate.applySidecar patcher pod patches sidecar
      = patches ++ sidecarOps patcher pod sidecar := by
  simp [PatchPodCreate.applySidecar, sidecarOps, List.append_assoc]

theorem foldl_applySidecar (patcher : SidecarInjectorPatcher) (pod : Pod)
    (sidecars : List Sidecar) (patches : List (PatchOperation PodValue)) :
    sidecars.foldl (PatchPodCreate.applySidecar patcher pod) patches
      = patches ++ sidecars.flatMap (sidecarOps patcher pod) :=
  foldl_append_flatMap _ _ (applySidecar_eq patcher pod) sidecars patches

/-- A `Get` that answers not-found: the search goes on with the next namespace. -/
theorem searchNamespaces_notFound (patcher : SidecarInjectorPatcher) (env : Env) (pod : Pod)
    (name ns : String) (rest : List String) (st : LoopState)
    (h : patcher.K8sClient ns name = .error .notFound) :
    PatchPodCreate.searchNamespaces patcher env pod name (ns :: rest) st
      = PatchPodCreate.searchNamespaces patcher env pod name rest
          { st with gets := st.gets ++ [(ns, name)] } := by
  simp [PatchPodCreate.searchNamespaces, h]

/-- A `Get` that fails otherwise: the search stops. -/
theorem searchNamespaces_error (patcher : SidecarInjectorPatcher) (env : Env) (pod : Pod)
    (name ns msg : String) (rest : List String) (st : LoopState)
    (h : patcher.K8sClient ns name = .error (.other msg)) :
    PatchPodCreate.searchNamespaces patcher env pod name (ns :: rest) st
      = { st with gets := st.gets ++ [(ns, name)] } := by
  simp [PatchPodCreate.searchNamespaces, h]

/-- A `Get` that succeeds with an object carrying the data key: its templates are
applied and the search stops. -/
theorem searchNamespaces_found (patcher : SidecarInjectorPatcher) (env : Env) (pod : Pod)
    (name ns : String) (rest : List String) (st : LoopState) (cm : ConfigMap)
    (sidecarsStr : String) (h : patcher.K8sClient ns name = .ok cm)
    (hkey : cm.Data.get? patcher.SidecarDataKey = some sidecarsStr) :
    PatchPodCreate.searchNamespaces patcher env pod name (ns :: rest) st
      = { patches := st.patches
            ++ ((env.yamlUnmarshal sidecarsStr).1.getD []).flatMap (sidecarOps patcher pod),
          gets := st.gets ++ [(ns, name)] } := by
  simp only [PatchPodCreate.searchNamespaces, h, hkey]
  cases hy : (env.yamlUnmarshal sidecarsStr).1 with
  | none => simp
  | some sidecars => simp [foldl_applySidecar]

/-- A namespace the search passes over only adds its `Get` to the record. -/
theorem searchNamespaces_passesOver (patcher : SidecarInjectorPatcher) (env : Env) (pod : Pod)
    (name ns : String) (rest : List String) (st : LoopState)
    (h : passesOver patcher name ns = true) :
    PatchPodCreate.searchNamespaces patcher env pod name (ns :: rest) st
      = PatchPodCreate.searchNamespaces patcher env pod name rest
          { st with gets := st.gets ++ [(ns, name)] } := by
  unfold passesOver at h
  rw [PatchPodCreate.searchNamespaces]
  cases hget : patcher.K8sClient ns name with
  | error e =>
    cases e with
    | notFound => rfl
    | other msg => rw [hget] at h; simp at h
  | ok cm =>
    rw [hget] at h
    simp only [Option.isNone_iff_eq_none] at h
    simp only [h]

theorem searchNamespaces_skip (patcher : SidecarInjectorPatcher) (env : Env) (pod : Pod)
    (name : String) (before rest : List String) (st : LoopState)
    (h : ∀ m ∈ before, passesOver patcher name m = true) :
    PatchPodCreate.searchNamespaces patcher env pod name (before ++ rest) st
      = PatchPodCreate.searchNamespaces patcher env pod name rest
          { st with gets := st.gets ++ getsFor name before } := by
  induction before generalizing st with
  | nil => simp [getsFor]
  | cons m ms ih =>
    rw [List.cons_append, searchNamespaces_passesOver _ _ _ _ _ _ _ (h m (List.mem_cons_self _ _)),
      ih _ (fun x hx => h x (List.mem_cons_of_mem _ hx))]
    simp [getsFor]

/-- The search for a name only appends to the state. -/
theorem searchNamespaces_append (patcher : SidecarInjectorPatcher) (env : Env) (pod : Pod)
    (name : String) (nss : List String) (st : LoopState) :
    PatchPodCreate.searchNamespaces patcher env pod name nss st
      = { patches := st.patches ++ (nameResult patcher env pod nss name).patches,
          gets := st.gets ++ (nameResult patcher env pod nss name).gets } := by
  unfold nameResult
  induction nss generalizing st with
  | nil => simp [PatchPodCreate.searchNamespaces]
  | cons ns rest ih =>
    cases hget : patcher.K8sClient ns name with
    | error e =>
      cases e with
      | notFound =>
        rw [searchNamespaces_notFound _ _ _ _ _ _ _ hget,
          searchNamespaces_notFound _ _ _ _ _ _ _ hget, ih, ih { patches := [], gets := [] ++ _ }]
        simp
      | other msg =>
        rw [searchNamespaces_error _ _ _ _ _ _ _ _ hget,
          searchNamespaces_error _ _ _ _ _ _ _ _ hget]
        simp
    | ok cm =>
      cases hkey : cm.Data.get? patcher.SidecarDataKey with
      | none =>
        have hpass : passesOver patcher name ns = true := by
          simp [passesOver, hget, hkey]
        rw [searchNamespaces_passesOver _ _ _ _ _ _ _ hpass,
          searchNamespaces_passesOver _ _ _ _ _ _ _ hpass, ih,
          ih { patches := [], gets := [] ++ _ }]
        simp
      | some str =>
        rw [searchNamespaces_found _ _ _ _ _ _ _ _ _ hget hkey,
          searchNamespaces_found _ _ _ _ _ _ _ _ _ hget hkey]
        simp

/-- The loop over the requested names concatenates what each name contributes. -/
theorem forNames_eq (patcher : SidecarInjectorPatcher) (env : Env) (pod : Pod)
    (nss names : List String) (st : LoopState) :
    PatchPodCreate.forNames patcher env pod nss names st
      = { patches := st.patches
            ++ names.flatMap (fun n => (nameResult patcher env pod nss n).patches),
          gets := st.gets ++ names.flatMap (fun n => (nameResult patcher env pod nss n).gets) } := by
  unfold PatchPodCreate.forNames
  induction names generalizing st with
  | nil => simp
  | cons n ns ih =>
    rw [List.foldl_cons, ih, searchNamespaces_append]
    simp [List.flatMap_cons, List.append_assoc]

/-- A pod without the injection annotation: nothing is requested, nothing is
fetched, no operation is returned and the error is nil. -/
theorem PatchPodCreate_absent_annotation (patcher : SidecarInjectorPatcher) (env : Env)
    (nspace : String) (pod : Pod)
    (h : pod.Annotations.get? ( sideCarInjectionAnnotation patcher) = none) :
    configmapSidecarNames patcher nspace pod = none
    ∧ PatchPodCreate patcher env nspace pod = ([], none)
    ∧ (PatchPodCreate.run patcher env nspace pod).gets = [] := by
  have hnone := configmapSidecarNames_of_absent patcher nspace pod h
  refine ⟨hnone, ?_, ?_⟩
  · simp [PatchPodCreate, PatchPodCreate.run, hnone]
  · simp [PatchPodCreate.run, hnone]

/-- C8 (the code at an empty annotation value): for a pod whose injection
annotation is the empty string, `configmapSidecarNames` returns the one-element
list holding the empty name, not an empty result, and `PatchPodCreate` issues a
`Get` for the object named "" in the pod's namespace; with a client that rejects
the empty name no operation results, with a client that answers that `Get` the
templates of the object are injected. -/
theorem C8_empty_annotation_value_is_fetched :
    configmapSidecarNames (demoPatcher strictClient) "default" (demoPod "") = some [""]
    ∧ PatchPodCreate.run (demoPatcher strictClient) demoEnv "default" (demoPod "")
      = { patches := [], gets := [("default", "")] }
    ∧ PatchPodCreate (demoPatcher emptyNameClient) demoEnv "default" (demoPod "")
      = ([{ Op := "add", Path := "/spec/containers",
            Value := PodValue.container (ArrayValue.slice [Container.mk "c" "img"]) }],
         none) := by
  decide

/-- When every candidate namespace before `ns` is passed over (its `Get` answers
not-found, or finds an object without the data key) and the `Get` in `ns` finds an
object with an entry under the data key, the search for the name fetches exactly
the namespaces up to `ns`, none after it, and appends exactly the operations of
the templates the decoder left for that entry; so does `PatchPodCreate` when the
name is the only one requested. -/
theorem searchNamespaces_first_object_with_data_key (patcher : SidecarInjectorPatcher)
    (env : Env)
    (pod : Pod) (name : String) (before : List String) (ns : String) (after : List String)
    (cm : ConfigMap) (sidecarsStr : String)
    (hbefore : ∀ m ∈ before, passesOver patcher name m = true)
    (hget : patcher.K8sClient ns name = .ok cm)
    (hkey : cm.Data.get? patcher.SidecarDataKey = some sidecarsStr) :
    (∀ st : LoopState,
      PatchPodCreate.searchNamespaces patcher env pod name (before ++ ns :: after) st
        = { patches := st.patches
              ++ ((env.yamlUnmarshal sidecarsStr).1.getD []).flatMap (sidecarOps patcher pod),
            gets := st.gets ++ getsFor name (before ++ [ns]) })
    ∧ (∀ nspace : String,
        PatchPodCreate.config_namespaces env nspace = before ++ ns :: after →
        configmapSidecarNames patcher nspace pod = some [name] →
        PatchPodCreate.run patcher env nspace pod
          = { patches :=
                ((env.yamlUnmarshal sidecarsStr).1.getD []).flatMap (sidecarOps patcher pod),
              gets := getsFor name (before ++ [ns]) }) := by
  have hsearch : ∀ st : LoopState,
      PatchPodCreate.searchNamespaces patcher env pod name (before ++ ns :: after) st
        = { patches := st.patches
              ++ ((env.yamlUnmarshal sidecarsStr).1.getD []).flatMap (sidecarOps patcher pod),
            gets := st.gets ++ getsFor name (before ++ [ns]) } := by
    intro st
    rw [searchNamespaces_skip _ _ _ _ _ _ _ hbefore,
      searchNamespaces_found _ _ _ _ _ _ _ _ _ hget hkey]
    simp [getsFor]
  refine ⟨hsearch, ?_⟩
  intro nspace hns hnames
  simp only [PatchPodCreate.run, hnames, hns, PatchPodCreate.forNames, List.foldl_cons,
    List.foldl_nil]
  rw [hsearch]
  simp

/-- With "app" absent from the pod's namespace "default" and present in the shared
namespace "injector", the shared definition is used, and a namespace listed after
"injector" is not fetched. -/
theorem searchNamespaces_first_object_with_data_key_example :
    sharedClient "default" "app" = .error .notFound
    ∧ PatchPodCreate.run (demoPatcher sharedClient) demoEnv "default" (demoPod "app")
      = { patches := [{ Op := "add", Path := "/spec/containers",
                        Value := PodValue.container
                          (ArrayValue.slice [Container.mk "c" "img"]) }],
          gets := [("default", "app"), ("injector", "app")] }
    ∧ (PatchPodCreate.searchNamespaces (demoPatcher sharedClient) demoEnv (demoPod "app") "app"
        ["default", "injector", "later"] { patches := [], gets := [] }).gets
      = [("default", "app"), ("injector", "app")] :=
  ⟨rfl,
   ((searchNamespaces_first_object_with_data_key (demoPatcher sharedClient) demoEnv
      (demoPod "app")
      "app" ["default"] "injector" [] { Data := some [("sidecars", "- t")] } "- t"
      (by decide) rfl (by decide)).2 "default" (by decide) (by decide)).trans (by decide),
   (congrArg LoopState.gets
      ((searchNamespaces_first_object_with_data_key (demoPatcher sharedClient) demoEnv
        (demoPod "app")
        "app" ["default"] "injector" ["later"] { Data := some [("sidecars", "- t")] } "- t"
        (by decide) rfl (by decide)).1 { patches := [], gets := [] })).trans (by decide)⟩

/-- C9 (the code at a found object without the data key): the `Get` for "app"
succeeds in the pod's namespace "default", with an object that has no "sidecars"
entry.  Whatever the decoder, the search does not stop there: the shared namespace
"injector" is fetched as well; and with the decoder's outcome for the text held
there, the definition of the shared namespace supplies the returned operation. -/
theorem C9_keyless_object_does_not_stop_search
    (decode : String → Option (List Sidecar) × Bool) :
    keylessClient "default" "app" = .ok { Data := some [("other", "x")] }
    ∧ (PatchPodCreate.run (demoPatcher keylessClient)
        { CONF_NAMESPACE := "injector", namespaceFile := .error "no such file",
          yamlUnmarshal := decode }
        "default" (demoPod "app")).gets
      = [("default", "app"), ("injector", "app")]
    ∧ PatchPodCreate.run (demoPatcher keylessClient) yamlEnv "default" (demoPod "app")
      = { patches := [{ Op := "add", Path := "/spec/containers",
                        Value := PodValue.container
                          (ArrayValue.slice [Container.mk "c" "img"]) }],
          gets := [("default", "app"), ("injector", "app")] } := by
  refine ⟨rfl, ?_, by decide⟩
  have h := (searchNamespaces_first_object_with_data_key (demoPatcher keylessClient)
    { CONF_NAMESPACE := "injector", namespaceFile := .error "no such file",
      yamlUnmarshal := decode }
    (demoPod "app") "app" ["default"] "injector" []
    { Data := some [("sidecars", sidecarYaml)] } sidecarYaml
    (by decide) rfl (by decide)).2 "default" rfl (by decide)
  rw [h]
  rfl

/-- C10: when every candidate namespace before `ns` is passed over and the `Get` for
`name` in `ns` fails with an error other than not-found, the search for `name`
stops there: the namespaces after `ns` are not fetched and `name` adds no
operation; the operations `PatchPodCreate` collects for a request list containing
`name` are those of the list without it.  A not-found answer instead moves the
search to the next candidate namespace for the same name. -/
theorem C10_fetch_error_stops_name_only (patcher : SidecarInjectorPatcher) (env : Env)
    (pod : Pod) (name : String) (before : List String) (ns : String) (after : List String)
    (msg : String)
    (hbefore : ∀ m ∈ before, passesOver patcher name m = true)
    (herr : patcher.K8sClient ns name = .error (.other msg)) :
    (∀ st : LoopState,
      PatchPodCreate.searchNamespaces patcher env pod name (before ++ ns :: after) st
        = { patches := st.patches, gets := st.gets ++ getsFor name (before ++ [ns]) })
    ∧ (∀ (pre post : List String) (st : LoopState),
        (PatchPodCreate.forNames patcher env pod (before ++ ns :: after)
            (pre ++ name :: post) st).patches
          = (PatchPodCreate.forNames patcher env pod (before ++ ns :: after)
              (pre ++ post) st).patches)
    ∧ (∀ (other m : String) (rest : List String) (st : LoopState),
        patcher.K8sClient m other = .error .notFound →
        PatchPodCreate.searchNamespaces patcher env pod other (m :: rest) st
          = PatchPodCreate.searchNamespaces patcher env pod other rest
              { st with gets := st.gets ++ [(m, other)] }) := by
  have hsearch : ∀ st : LoopState,
      PatchPodCreate.searchNamespaces patcher env pod name (before ++ ns :: after) st
        = { patches := st.patches, gets := st.gets ++ getsFor name (before ++ [ns]) } := by
    intro st
    rw [searchNamespaces_skip _ _ _ _ _ _ _ hbefore,
      searchNamespaces_error _ _ _ _ _ _ _ _ herr]
    simp [getsFor]
  refine ⟨hsearch, ?_, ?_⟩
  · intro pre post st
    have hnil : (nameResult patcher env pod (before ++ ns :: after) name).patches = [] := by
      unfold nameResult
      rw [hsearch]
    rw [forNames_eq, forNames_eq]
    simp [List.flatMap_append, List.flatMap_cons, hnil]
  · intro other m rest st hnf
    exact searchNamespaces_notFound patcher env pod other m rest st hnf

/-- C10 with the `Get` of "bad" failing in "default": "injector", which holds "bad", is
not fetched for it, and requesting "bad" then "app" collects the operations of
"app" alone. -/
theorem C10_fetch_error_stops_name_only_witness :
    failingClient "default" "bad" = .error (.other "connection refused")
    ∧ PatchPodCreate.searchNamespaces (demoPatcher failingClient) demoEnv (demoPod "bad, app")
        "bad" ["default", "injector"] { patches := [], gets := [] }
      = { patches := [], gets := [("default", "bad")] }
    ∧ (PatchPodCreate.forNames (demoPatcher failingClient) demoEnv (demoPod "bad, app")
        ["default", "injector"] ["bad", "app"] { patches := [], gets := [] }).patches
      = (PatchPodCreate.forNames (demoPatcher failingClient) demoEnv (demoPod "bad, app")
          ["default", "injector"] ["app"] { patches := [], gets := [] }).patches :=
  ⟨rfl,
   ((C10_fetch_error_stops_name_only (demoPatcher failingClient) demoEnv (demoPod "bad, app")
      "bad" [] "default" ["injector"] "connection refused" (by decide) rfl).1
      { patches := [], gets := [] }).trans (by decide),
   (C10_fetch_error_stops_name_only (demoPatcher failingClient) demoEnv (demoPod "bad, app")
      "bad" [] "default" ["injector"] "connection refused" (by decide) rfl).2.1
      [] ["app"] { patches := [], gets := [] }⟩

/-! ## The returned error, namespace resolution, update and delete -/

/-- C11: the error returned by `PatchPodCreate` is nil for every patcher (so for
every outcome of the `Get` calls), every environment (so for every outcome of the
shared-namespace resolution and of the decoder), every namespace and every pod. -/
theorem C11_PatchPodCreate_error_is_nil (patcher : SidecarInjectorPatcher) (env : Env)
    (nspace : String) (pod : Pod) :
    (PatchPodCreate patcher env nspace pod).2 = none := by
  rfl

theorem getCommonConfigmapNamespace_override (env : Env) (h : env.CONF_NAMESPACE ≠ "") :
    getCommonConfigmapNamespace env = .ok env.CONF_NAMESPACE := by
  simp [getCommonConfigmapNamespace, h]

theorem getCommonConfigmapNamespace_file (env : Env) (h : env.CONF_NAMESPACE = "") :
    getCommonConfigmapNamespace env
      = match env.namespaceFile with
        | .error err => .error ("failure while looking up configmap namespace: " ++ err)
        | .ok content =>
          if strings.TrimSpace content = "" then
            .error "could not determine configmap namespace. Set CONF_NAMESPACE global var"
          else .ok (strings.TrimSpace content) := by
  unfold getCommonConfigmapNamespace
  simp only [h, bne_self_eq_false, Bool.false_eq_true, if_false]
  cases env.namespaceFile with
  | error err => rfl
  | ok content => simp

/-- C15: as a function of the override value and of the outcome of reading the
namespace file, `getCommonConfigmapNamespace` returns a non-empty override
unchanged whatever the file; with an empty override it fails when the file cannot
be read, fails when the trimmed content is empty, and otherwise returns the
trimmed content.  The candidate list of `PatchPodCreate` starts with the pod's
namespace; it is the pod's namespace followed by the shared one when the
resolution succeeds, and the pod's namespace alone when it fails. -/
theorem C15_shared_namespace_resolution (env : Env) (nspace : String) :
    (env.CONF_NAMESPACE ≠ "" → getCommonConfigmapNamespace env = .ok env.CONF_NAMESPACE)
    ∧ (env.CONF_NAMESPACE = "" → ∀ err, env.namespaceFile = .error err →
        ∃ e, getCommonConfigmapNamespace env = .error e)
    ∧ (env.CONF_NAMESPACE = "" → ∀ content, env.namespaceFile = .ok content →
        strings.TrimSpace content = "" → ∃ e, getCommonConfigmapNamespace env = .error e)
    ∧ (env.CONF_NAMESPACE = "" → ∀ content, env.namespaceFile = .ok content →
        strings.TrimSpace content ≠ "" →
        getCommonConfigmapNamespace env = .ok (strings.TrimSpace content))
    ∧ (PatchPodCreate.config_namespaces env nspace).head? = some nspace
    ∧ (∀ shared, getCommonConfigmapNamespace env = .ok shared →
        PatchPodCreate.config_namespaces env nspace = [nspace, shared])
    ∧ (∀ e, getCommonConfigmapNamespace env = .error e →
        PatchPodCreate.config_namespaces env nspace = [nspace]) := by
  refine ⟨getCommonConfigmapNamespace_override env, ?_, ?_, ?_, ?_, ?_, ?_⟩
  · intro h err hfile
    rw [getCommonConfigmapNamespace_file env h, hfile]
    exact ⟨_, rfl⟩
  · intro h content hfile hempty
    rw [getCommonConfigmapNamespace_file env h, hfile]
    simp only [hempty, if_true]
    exact ⟨_, rfl⟩
  · intro h content hfile hne
    rw [getCommonConfigmapNamespace_file env h, hfile]
    simp only [hne, if_false]
  · unfold PatchPodCreate.config_namespaces
    cases getCommonConfigmapNamespace env <;> rfl
  · intro shared hok
    simp [PatchPodCreate.config_namespaces, hok]
  · intro e herr
    simp [PatchPodCreate.config_namespaces, herr]

/-- C15 at four environments: an override next to a readable file, an unreadable
file, a file of white space, and a file holding the namespace with a newline. -/
theorem C15_shared_namespace_resolution_witness :
    getCommonConfigmapNamespace
        { CONF_NAMESPACE := " ops ", namespaceFile := .ok "kube-system",
          yamlUnmarshal := fun _ => (none, true) } = .ok " ops "
    ∧ (∃ e, getCommonConfigmapNamespace
        { CONF_NAMESPACE := "", namespaceFile := .error "no such file",
          yamlUnmarshal := fun _ => (none, true) } = .error e)
    ∧ (∃ e, getCommonConfigmapNamespace
        { CONF_NAMESPACE := "", namespaceFile := .ok " \n",
          yamlUnmarshal := fun _ => (none, true) } = .error e)
    ∧ getCommonConfigmapNamespace
        { CONF_NAMESPACE := "", namespaceFile := .ok "injector\n",
          yamlUnmarshal := fun _ => (none, true) } = .ok "injector" :=
  ⟨(C15_shared_namespace_resolution _ "default").1 (by decide),
   (C15_shared_namespace_resolution _ "default").2.1 rfl "no such file" rfl,
   (C15_shared_namespace_resolution _ "default").2.2.1 rfl " \n" rfl (by decide),
   ((C15_shared_namespace_resolution _ "default").2.2.2.1 rfl "injector\n" rfl
      (by decide)).trans
    (congrArg Except.ok (by decide : strings.TrimSpace "injector\n" = "injector"))⟩

/-- C16: `PatchPodUpdate` and `PatchPodDelete` return no operation and a nil error for
every patcher, namespace and pods. -/
theorem C16_update_and_delete_return_nothing (patcher : SidecarInjectorPatcher)
    (nspace : String) (oldPod pod : Pod) :
    PatchPodUpdate patcher nspace oldPod pod = ([], none)
    ∧ PatchPodDelete patcher nspace pod = ([], none) :=
  ⟨rfl, rfl⟩

/-! ## The whole patch list -/

theorem sidecarOps_eq_templateOps (patcher : SidecarInjectorPatcher) (pod : Pod)
    (sidecar : Sidecar) : sidecarOps patcher pod sidecar = templateOps patcher pod sidecar := by
  simp [sidecarOps, templateOps, PatchPodCreate.applySidecar, List.append_assoc]

theorem nameResult_patches (patcher : SidecarInjectorPatcher) (env : Env) (pod : Pod)
    (nss : List String) (name : String) :
    (nameResult patcher env pod nss name).patches
      = (appliedTemplates patcher env nss name).flatMap (sidecarOps patcher pod) := by
  induction nss with
  | nil => simp [nameResult, appliedTemplates, PatchPodCreate.searchNamespaces]
  | cons ns rest ih =>
    cases hpass : passesOver patcher name ns with
    | true =>
      have hres : appliedTemplates patcher env (ns :: rest) name
          = appliedTemplates patcher env rest name := by
        simp [appliedTemplates, List.find?_cons, hpass]
      rw [hres, ← ih]
      unfold nameResult
      rw [searchNamespaces_passesOver _ _ _ _ _ _ _ hpass, searchNamespaces_append]
      simp [nameResult]
    | false =>
      have hfind : (ns :: rest).find? (fun m => !passesOver patcher name m) = some ns := by
        simp [List.find?_cons, hpass]
      unfold nameResult appliedTemplates
      rw [hfind]
      cases hget : patcher.K8sClient ns name with
      | error e =>
        cases e with
        | notFound => simp [passesOver, hget] at hpass
        | other msg =>
          rw [searchNamespaces_error _ _ _ _ _ _ _ _ hget]
          simp [hget]
      | ok cm =>
        cases hkey : cm.Data.get? patcher.SidecarDataKey with
        | none => simp [passesOver, hget, hkey] at hpass
        | some str =>
          rw [searchNamespaces_found _ _ _ _ _ _ _ _ _ hget hkey]
          simp [hget, hkey]

/-- Closed form of `PatchPodCreate`, from the source: the returned list is the
concatenation, over the requested names in annotation order, of the operations of
every template the namespace loop applies for the name (`appliedTemplates`), in
the order of the templates in the object; the operations of a template are those
of `createArrayPatches` for initContainers, containers, volumes and
imagePullSecrets, then those of `createObjectPatches` for annotations and labels
with their override flags, all against the pod's own fields at the six fixed
paths. -/
theorem PatchPodCreate_closed_form (patcher : SidecarInjectorPatcher) (env : Env)
    (nspace : String) (pod : Pod) :
    (PatchPodCreate patcher env nspace pod).1
      = ((configmapSidecarNames patcher nspace pod).getD []).flatMap
          (fun name =>
            (appliedTemplates patcher env (PatchPodCreate.config_namespaces env nspace)
                name).flatMap
              (fun sidecar =>
                (createArrayPatches sidecar.InitContainers pod.Spec.InitContainers
                    "/spec/initContainers").map (PatchOperation.box PodValue.container)
                ++ (createArrayPatches sidecar.Containers pod.Spec.Containers
                    "/spec/containers").map (PatchOperation.box PodValue.container)
                ++ (createArrayPatches sidecar.Volumes pod.Spec.Volumes
                    "/spec/volumes").map (PatchOperation.box PodValue.volume)
                ++ (createArrayPatches sidecar.ImagePullSecrets pod.Spec.ImagePullSecrets
                    "/spec/imagePullSecrets").map
                      (PatchOperation.box PodValue.localObjectReference)
                ++ (createObjectPatches sidecar.Annotations pod.Annotations
                    "/metadata/annotations" patcher.AllowAnnotationOverrides).map
                      (PatchOperation.box PodValue.object)
                ++ (createObjectPatches sidecar.Labels pod.Labels
                    "/metadata/labels" patcher.AllowLabelOverrides).map
                      (PatchOperation.box PodValue.object))) := by
  have hfun : (fun sidecar =>
      (createArrayPatches sidecar.InitContainers pod.Spec.InitContainers
          "/spec/initContainers").map (PatchOperation.box PodValue.container)
      ++ (createArrayPatches sidecar.Containers pod.Spec.Containers
          "/spec/containers").map (PatchOperation.box PodValue.container)
      ++ (createArrayPatches sidecar.Volumes pod.Spec.Volumes
          "/spec/volumes").map (PatchOperation.box PodValue.volume)
      ++ (createArrayPatches sidecar.ImagePullSecrets pod.Spec.ImagePullSecrets
          "/spec/imagePullSecrets").map (PatchOperation.box PodValue.localObjectReference)
      ++ (createObjectPatches sidecar.Annotations pod.Annotations
          "/metadata/annotations" patcher.AllowAnnotationOverrides).map
            (PatchOperation.box PodValue.object)
      ++ (createObjectPatches sidecar.Labels pod.Labels
          "/metadata/labels" patcher.AllowLabelOverrides).map
            (PatchOperation.box PodValue.object)) = sidecarOps patcher pod := by
    funext sidecar
    rw [sidecarOps_eq_templateOps]
    rfl
  rw [hfun]
  unfold PatchPodCreate PatchPodCreate.run
  cases hnames : configmapSidecarNames patcher nspace pod with
  | none => simp
  | some names =>
    simp only [Option.getD_some]
    rw [forNames_eq]
    simp only [List.nil_append]
    congr 1
    funext name
    exact nameResult_patches patcher env pod _ name

/-! ## Shape of the returned operations -/

theorem mem_createArrayPatches {T : Type} (new existing : List T) (path : String)
    (p : PatchOperation (ArrayValue T)) (hp : p ∈ createArrayPatches new existing path) :
    p.Op = "add" ∧ (p.Path = path ∨ p.Path = path ++ "/-") := by
  rw [createArrayPatches_eq_map] at hp
  obtain ⟨e, _, rfl⟩ := List.mem_map.1 hp
  unfold arrayOp
  split <;> simp [establishOp, appendOp]

theorem mem_createObjectPatches (newMap existingMap : GoMap) (path : String) (override : Bool)
    (p : PatchOperation ObjectValue)
    (hp : p ∈ createObjectPatches newMap existingMap path override) :
    (existingMap = none ∧ p.Op = "add" ∧ p.Path = path)
    ∨ (existingMap ≠ none
        ∧ ∃ key, p.Path = path ++ "/" ++ key ∧ (p.Op = "add" ∨ p.Op = "replace")) := by
  cases existingMap with
  | none =>
    left
    simp only [createObjectPatches, List.mem_singleton] at hp
    subst hp
    exact ⟨rfl, rfl, rfl⟩
  | some es =>
    right
    refine ⟨by simp, ?_⟩
    rw [createObjectPatches_eq_flatMap, List.mem_flatMap] at hp
    obtain ⟨e, _, he⟩ := hp
    unfold objectOps at he
    split at he
    · simp only [List.mem_singleton] at he
      subst he
      refine ⟨e.1, rfl, ?_⟩
      by_cases hc : GoMap.contains (some es) e.1 = true
      · right
        simp [hc]
      · left
        simp [hc]
    · simp at he

/-- Where an operation of one template comes from. -/
theorem mem_templateOps (patcher : SidecarInjectorPatcher) (pod : Pod) (sidecar : Sidecar)
    (op : PatchOperation PodValue) (hop : op ∈ templateOps patcher pod sidecar) :
    (op.Op = "add"
      ∧ ∃ base ∈ ["/spec/initContainers", "/spec/containers", "/spec/volumes",
                  "/spec/imagePullSecrets"],
          op.Path = base ∨ op.Path = base ++ "/-")
    ∨ (pod.Annotations = none ∧ op.Op = "add" ∧ op.Path = "/metadata/annotations")
    ∨ (pod.Annotations ≠ none
        ∧ ∃ key, op.Path = "/metadata/annotations" ++ "/" ++ key
            ∧ (op.Op = "add" ∨ op.Op = "replace"))
    ∨ (pod.Labels = none ∧ op.Op = "add" ∧ op.Path = "/metadata/labels")
    ∨ (pod.Labels ≠ none
        ∧ ∃ key, op.Path = "/metadata/labels" ++ "/" ++ key
            ∧ (op.Op = "add" ∨ op.Op = "replace")) := by
  simp only [templateOps, List.mem_append, List.mem_map] at hop
  rcases hop with ((((⟨p, hp, rfl⟩ | ⟨p, hp, rfl⟩) | ⟨p, hp, rfl⟩) | ⟨p, hp, rfl⟩)
    | ⟨p, hp, rfl⟩) | ⟨p, hp, rfl⟩
  · have h := mem_createArrayPatches _ _ _ p hp
    exact Or.inl ⟨h.1, "/spec/initContainers", by simp, h.2⟩
  · have h := mem_createArrayPatches _ _ _ p hp
    exact Or.inl ⟨h.1, "/spec/containers", by simp, h.2⟩
  · have h := mem_createArrayPatches _ _ _ p hp
    exact Or.inl ⟨h.1, "/spec/volumes", by simp, h.2⟩
  · have h := mem_createArrayPatches _ _ _ p hp
    exact Or.inl ⟨h.1, "/spec/imagePullSecrets", by simp, h.2⟩
  · rcases mem_createObjectPatches _ _ _ _ p hp with h | h
    · exact Or.inr (Or.inl h)
    · exact Or.inr (Or.inr (Or.inl h))
  · rcases mem_createObjectPatches _ _ _ _ p hp with h | h
    · exact Or.inr (Or.inr (Or.inr (Or.inl h)))
    · exact Or.inr (Or.inr (Or.inr (Or.inr h)))

/-- The operations collected by `PatchPodCreate`, by requested name and applied
template. -/
theorem run_patches_eq (patcher : SidecarInjectorPatcher) (env : Env) (nspace : String)
    (pod : Pod) :
    (PatchPodCreate.run patcher env nspace pod).patches
      = ((configmapSidecarNames patcher nspace pod).getD []).flatMap
          (fun name =>
            (appliedTemplates patcher env (PatchPodCreate.config_namespaces env nspace)
                name).flatMap (templateOps patcher pod)) := by
  unfold PatchPodCreate.run
  cases hnames : configmapSidecarNames patcher nspace pod with
  | none => simp
  | some names =>
    simp only [Option.getD_some]
    rw [forNames_eq]
    simp only [List.nil_append]
    congr 1
    funext name
    rw [nameResult_patches]
    congr 1

/-- An operation is returned only for a pod that has an annotation map, and it is
an operation of some template. -/
theorem mem_run_patches (patcher : SidecarInjectorPatcher) (env : Env) (nspace : String)
    (pod : Pod) (op : PatchOperation PodValue)
    (hop : op ∈ (PatchPodCreate.run patcher env nspace pod).patches) :
    pod.Annotations ≠ none ∧ ∃ sidecar, op ∈ templateOps patcher pod sidecar := by
  rw [run_patches_eq] at hop
  constructor
  · intro hnil
    have habsent : pod.Annotations.get? ( sideCarInjectionAnnotation patcher) = none := by
      rw [hnil]
      rfl
    rw [configmapSidecarNames_of_absent patcher nspace pod habsent] at hop
    simp at hop
  · simp only [List.mem_flatMap] at hop
    obtain ⟨_, _, sidecar, _, h⟩ := hop
    exact ⟨sidecar, h⟩

theorem basePaths_under_spec_or_metadata (base : String) (hb : base ∈ basePaths) :
    (∃ tail, base = "/spec/" ++ tail) ∨ (∃ tail, base = "/metadata/" ++ tail) := by
  simp only [basePaths, List.mem_cons, List.mem_singleton, List.not_mem_nil, or_false] at hb
  rcases hb with rfl | rfl | rfl | rfl | rfl | rfl
  · exact Or.inl ⟨"initContainers", by decide⟩
  · exact Or.inl ⟨"containers", by decide⟩
  · exact Or.inl ⟨"volumes", by decide⟩
  · exact Or.inl ⟨"imagePullSecrets", by decide⟩
  · exact Or.inr ⟨"annotations", by decide⟩
  · exact Or.inr ⟨"labels", by decide⟩

/-- Shape of every operation of one template. -/
theorem templateOps_shape (patcher : SidecarInjectorPatcher) (pod : Pod) (sidecar : Sidecar)
    (op : PatchOperation PodValue) (hop : op ∈ templateOps patcher pod sidecar) :
    (op.Op = "add" ∨ op.Op = "replace")
    ∧ (∃ base ∈ basePaths, ∃ rest, op.Path = base ++ rest)
    ∧ (op.Op = "replace" →
        ∃ key, op.Path = "/metadata/annotations/" ++ key
          ∨ op.Path = "/metadata/labels/" ++ key) := by
  have hne : ("add" : String) ≠ "replace" := by decide
  rcases mem_templateOps patcher pod sidecar op hop with
    ⟨hadd, base, hbase, hpath⟩ | ⟨_, hadd, hpath⟩ | ⟨_, key, hpath, hopk⟩
    | ⟨_, hadd, hpath⟩ | ⟨_, key, hpath, hopk⟩
  · refine ⟨Or.inl hadd, ⟨base, ?_, ?_⟩, fun hrep => absurd (hadd.symm.trans hrep) hne⟩
    · simp only [List.mem_cons, List.mem_singleton, List.not_mem_nil, or_false] at hbase
      rcases hbase with rfl | rfl | rfl | rfl <;> simp [basePaths]
    · rcases hpath with h | h
      · exact ⟨"", by rw [h, String.append_empty]⟩
      · exact ⟨"/-", h⟩
  · refine ⟨Or.inl hadd, ⟨"/metadata/annotations", by simp [basePaths], "", ?_⟩,
      fun hrep => absurd (hadd.symm.trans hrep) hne⟩
    rw [hpath, String.append_empty]
  · refine ⟨hopk, ⟨"/metadata/annotations", by simp [basePaths], "/" ++ key, ?_⟩,
      fun _ => ⟨key, Or.inl ?_⟩⟩
    · rw [hpath, String.append_assoc]
    · rw [hpath]
      rfl
  · refine ⟨Or.inl hadd, ⟨"/metadata/labels", by simp [basePaths], "", ?_⟩,
      fun hrep => absurd (hadd.symm.trans hrep) hne⟩
    rw [hpath, String.append_empty]
  · refine ⟨hopk, ⟨"/metadata/labels", by simp [basePaths], "/" ++ key, ?_⟩,
      fun _ => ⟨key, Or.inr ?_⟩⟩
    · rw [hpath, String.append_assoc]
    · rw [hpath]
      rfl

/-- C14: every operation returned by `PatchPodCreate` has op "add" or "replace" and
a path that starts with one of the six fixed base paths, hence with "/spec/" or
"/metadata/"; a "replace" only occurs at a path made of "/metadata/annotations/"
or "/metadata/labels/" followed by a key. -/
theorem C14_returned_operations_shape (patcher : SidecarInjectorPatcher) (env : Env)
    (nspace : String) (pod : Pod) (op : PatchOperation PodValue)
    (hop : op ∈ (PatchPodCreate patcher env nspace pod).1) :
    (op.Op = "add" ∨ op.Op = "replace")
    ∧ (∃ base ∈ basePaths, ∃ rest, op.Path = base ++ rest)
    ∧ ((∃ rest, op.Path = "/spec/" ++ rest) ∨ (∃ rest, op.Path = "/metadata/" ++ rest))
    ∧ (op.Op = "replace" →
        ∃ key, op.Path = "/metadata/annotations/" ++ key
          ∨ op.Path = "/metadata/labels/" ++ key) := by
  obtain ⟨_, sidecar, hmem⟩ := mem_run_patches patcher env nspace pod op hop
  obtain ⟨hops, ⟨base, hbase, rest, hpath⟩, hrep⟩ := templateOps_shape patcher pod sidecar op hmem
  refine ⟨hops, ⟨base, hbase, rest, hpath⟩, ?_, hrep⟩
  rcases basePaths_under_spec_or_metadata base hbase with ⟨tail, ht⟩ | ⟨tail, ht⟩
  · exact Or.inl ⟨tail ++ rest, by rw [hpath, ht, String.append_assoc]⟩
  · exact Or.inr ⟨tail ++ rest, by rw [hpath, ht, String.append_assoc]⟩

/-- C14 at the operation returned for `demoPod "app"` with "app" held in the shared
namespace. -/
theorem C14_returned_operations_shape_witness :
    ({ Op := "add", Path := "/spec/containers",
       Value := PodValue.container (ArrayValue.slice [Container.mk "c" "img"]) }
        : PatchOperation PodValue)
      ∈ (PatchPodCreate (demoPatcher sharedClient) demoEnv "default" (demoPod "app")).1
    ∧ (∃ base ∈ basePaths, ∃ rest, "/spec/containers" = base ++ rest) :=
  ⟨by decide,
   (C14_returned_operations_shape (demoPatcher sharedClient) demoEnv "default"
      (demoPod "app")
      { Op := "add", Path := "/spec/containers",
        Value := PodValue.container (ArrayValue.slice [Container.mk "c" "img"]) }
      (by decide)).2.1⟩

/-! ## Decoding failures -/

/-- When the decoder fails and leaves the slice nil, the object adds no operation
and the search for the name stops at its namespace. -/
theorem searchNamespaces_decode_failure_nil (patcher : SidecarInjectorPatcher) (env : Env)
    (pod : Pod) (name : String) (before : List String) (ns : String) (after : List String)
    (cm : ConfigMap) (sidecarsStr : String) (st : LoopState)
    (hbefore : ∀ m ∈ before, passesOver patcher name m = true)
    (hget : patcher.K8sClient ns name = .ok cm)
    (hkey : cm.Data.get? patcher.SidecarDataKey = some sidecarsStr)
    (hfail : env.yamlUnmarshal sidecarsStr = (none, true)) :
    PatchPodCreate.searchNamespaces patcher env pod name (before ++ ns :: after) st
      = { patches := st.patches, gets := st.gets ++ getsFor name (before ++ [ns]) } := by
  rw [searchNamespaces_skip _ _ _ _ _ _ _ hbefore,
    searchNamespaces_found _ _ _ _ _ _ _ _ _ hget hkey, hfail]
  simp [getsFor]

/-- C12 (the code at a decoding failure): the object "app" is found in "default", the
decoder reports an error for its data, and the entry it had stored is applied all
the same: the object contributes one template and one operation. -/
theorem C12_failed_decoding_still_applied :
    (mistypedEnv.yamlUnmarshal mistypedText).2 = true
    ∧ PatchPodCreate (demoPatcher mistypedClient) mistypedEnv "default" (demoPod "app")
      = ([{ Op := "add", Path := "/spec/containers",
            Value := PodValue.container (ArrayValue.slice [Container.mk "c" "img"]) }],
         none)
    ∧ (PatchPodCreate.run (demoPatcher mistypedClient) mistypedEnv "default"
        (demoPod "app")).gets = [("default", "app")] := by
  decide

/-! ## Annotation operations are per key -/

theorem take_eq_of_append_eq (a b r r' : String) (n : Nat) (ha : n ≤ a.data.length)
    (hb : n ≤ b.data.length) (h : a ++ r = b ++ r') : a.data.take n = b.data.take n := by
  have hd := congrArg (fun s => s.data.take n) h
  simp only [String.data_append] at hd
  rwa [List.take_append_of_le_length ha, List.take_append_of_le_length hb] at hd

theorem append_slash_key_ne (a key : String) : a ++ "/" ++ key ≠ a := by
  intro h
  have hd : (a ++ "/" ++ key).data.length = a.data.length := by rw [h]
  have hone : ("/" : String).data.length = 1 := by decide
  rw [String.data_append, String.data_append, List.length_append, List.length_append,
    hone] at hd
  omega

/-- A path that starts with "/metadata/annotations" belongs, in a pod with an
annotation map, to a per-key annotation operation. -/
theorem templateOps_annotation_path (patcher : SidecarInjectorPatcher) (pod : Pod)
    (sidecar : Sidecar) (op : PatchOperation PodValue)
    (hop : op ∈ templateOps patcher pod sidecar) (hann : pod.Annotations ≠ none)
    (rest : String) (hpath : op.Path = "/metadata/annotations" ++ rest) :
    ∃ key, op.Path = "/metadata/annotations/" ++ key := by
  rcases mem_templateOps patcher pod sidecar op hop with
    ⟨_, base, hbase, hp⟩ | ⟨hnil, _, _⟩ | ⟨_, key, hp, _⟩ | ⟨_, _, hp⟩ | ⟨_, key, hp, _⟩
  · exfalso
    have hbr : ∃ r, op.Path = base ++ r := by
      rcases hp with h | h
      · exact ⟨"", by rw [h, String.append_empty]⟩
      · exact ⟨"/-", h⟩
    obtain ⟨r, hr⟩ := hbr
    rw [hpath] at hr
    simp only [List.mem_cons, List.mem_singleton, List.not_mem_nil, or_false] at hbase
    rcases hbase with rfl | rfl | rfl | rfl
    · exact absurd (take_eq_of_append_eq _ _ _ _ 2 (by decide) (by decide) hr) (by decide)
    · exact absurd (take_eq_of_append_eq _ _ _ _ 2 (by decide) (by decide) hr) (by decide)
    · exact absurd (take_eq_of_append_eq _ _ _ _ 2 (by decide) (by decide) hr) (by decide)
    · exact absurd (take_eq_of_append_eq _ _ _ _ 2 (by decide) (by decide) hr) (by decide)
  · exact absurd hnil hann
  · exact ⟨key, by rw [hp]; rfl⟩
  · exfalso
    have hr : "/metadata/annotations" ++ rest = "/metadata/labels" ++ "" := by
      rw [← hpath, hp, String.append_empty]
    exact absurd (take_eq_of_append_eq _ _ _ _ 11 (by decide) (by decide) hr) (by decide)
  · exfalso
    have hr : "/metadata/annotations" ++ rest = "/metadata/labels" ++ ("/" ++ key) := by
      rw [← hpath, hp, String.append_assoc]
    exact absurd (take_eq_of_append_eq _ _ _ _ 11 (by decide) (by decide) hr) (by decide)

/-- C20: no operation returned by `PatchPodCreate` has the path
"/metadata/annotations": an operation is returned only for a pod whose annotation
map is non-nil, so every operation whose path starts with "/metadata/annotations"
is a per-key operation at "/metadata/annotations/" followed by the key.  The
whole-map branch stays reachable for labels: a pod without a label map gets an
operation at "/metadata/labels". -/
theorem C20_no_whole_map_annotation_operation (patcher : SidecarInjectorPatcher) (env : Env)
    (nspace : String) (pod : Pod) :
    (∀ op ∈ (PatchPodCreate patcher env nspace pod).1, op.Path ≠ "/metadata/annotations")
    ∧ ((PatchPodCreate patcher env nspace pod).1 ≠ [] →
        pod.Annotations ≠ none
        ∧ pod.Annotations.get? ( sideCarInjectionAnnotation patcher) ≠ none)
    ∧ (∀ op ∈ (PatchPodCreate patcher env nspace pod).1,
        ∀ rest, op.Path = "/metadata/annotations" ++ rest →
          ∃ key, op.Path = "/metadata/annotations/" ++ key)
    ∧ (∃ op ∈ (PatchPodCreate (demoPatcher sharedClient) demoEnv "default" unlabelledPod).1,
        op.Path = "/metadata/labels") := by
  have hper : ∀ op ∈ (PatchPodCreate patcher env nspace pod).1,
      ∀ rest, op.Path = "/metadata/annotations" ++ rest →
        ∃ key, op.Path = "/metadata/annotations/" ++ key := by
    intro op hop rest hpath
    obtain ⟨hann, sidecar, hmem⟩ := mem_run_patches patcher env nspace pod op hop
    exact templateOps_annotation_path patcher pod sidecar op hmem hann rest hpath
  refine ⟨?_, ?_, hper, ?_⟩
  · intro op hop hpath
    obtain ⟨key, hkey⟩ := hper op hop "" (by rw [hpath, String.append_empty])
    rw [hpath] at hkey
    have h2 : "/metadata/annotations" ++ "/" ++ key = "/metadata/annotations" := hkey.symm
    exact append_slash_key_ne _ _ h2
  · intro hne
    constructor
    · cases hl : (PatchPodCreate patcher env nspace pod).1 with
      | nil => exact absurd hl hne
      | cons op ops =>
        have hop : op ∈ (PatchPodCreate patcher env nspace pod).1 := by
          rw [hl]
          exact List.mem_cons_self _ _
        exact (mem_run_patches patcher env nspace pod op hop).1
    · intro habsent
      have hnil := ( PatchPodCreate_absent_annotation patcher env nspace pod habsent).2.1
      exact hne (by rw [hnil])
  · exact ⟨{ Op := "add", Path := "/metadata/labels",
             Value := PodValue.object (ObjectValue.map (some [])) }, by decide, rfl⟩

/-! ## Map paths read as JSON pointers -/

theorem replacePair_of_not_mem (a b r : Char) (l : List Char) (h : a ∉ l) :
    rfc6901.replacePair a b r false l = l := by
  induction l with
  | nil => rfl
  | cons x xs ih =>
    have hx : ¬ x = a := fun e => h (by simp [e])
    have hxs : a ∉ xs := fun e => h (List.mem_cons_of_mem _ e)
    simp [rfc6901.replacePair, hx, ih hxs]

theorem unescape_of_not_mem (token : List Char) (h : '~' ∉ token) :
    rfc6901.unescape token = token := by
  unfold rfc6901.unescape
  rw [replacePair_of_not_mem _ _ _ _ h, replacePair_of_not_mem _ _ _ _ h]

theorem splitChars_of_not_mem (sep : Char) (l : List Char) (h : sep ∉ l) :
    strings.splitChars sep l = [l] := by
  induction l with
  | nil => rfl
  | cons x xs ih =>
    have hx : ¬ x = sep := fun e => h (by simp [e])
    have hxs : sep ∉ xs := fun e => h (List.mem_cons_of_mem _ e)
    simp [strings.splitChars, hx, ih hxs]

theorem splitChars_append_sep (sep : Char) (b k : List Char) (hk : sep ∉ k) :
    strings.splitChars sep (b ++ sep :: k) = strings.splitChars sep b ++ [k] := by
  induction b with
  | nil => simp [strings.splitChars, splitChars_of_not_mem sep k hk]
  | cons x xs ih =>
    by_cases hx : x = sep
    · simp [strings.splitChars, hx, ih]
    · rcases hsplit : strings.splitChars sep xs with _ | ⟨p, ps⟩
      · exact absurd hsplit (splitChars_ne_nil sep xs)
      · rw [hsplit] at ih
        simp [strings.splitChars, hx, ih, hsplit]

/-- For a key without "/" and "~", the path of the per-key operation has the
tokens of the base path followed by the key. -/
theorem tokens_of_plain_key (base key : String) (cs : List Char)
    (hbase : base.data = '/' :: cs) (hslash : '/' ∉ key.data) (htilde : '~' ∉ key.data) :
    rfc6901.tokens (base ++ "/" ++ key) = (rfc6901.tokens base).map (fun ts => ts ++ [key]) := by
  have hdata : (base ++ "/" ++ key).data = '/' :: (cs ++ '/' :: key.data) := by
    have hs : ("/" : String).data = ['/'] := rfl
    simp only [String.data_append, hbase, hs]
    simp
  unfold rfc6901.tokens
  rw [hdata, hbase]
  simp only [if_true, Option.map_some']
  rw [splitChars_append_sep '/' cs key.data hslash, List.map_append]
  simp [unescape_of_not_mem key.data htilde]

/-- C17 (the code at keys holding "/" or "~"): for the label key
"app.kubernetes.io/name" the operation is at "/metadata/labels/app.kubernetes.io/name",
whose reference tokens end in the two tokens "app.kubernetes.io" and "name", not in
the key; for the key "a~1b" the last token decodes to "a/b". -/
theorem C17_key_is_not_escaped :
    createObjectPatches (some [("app.kubernetes.io/name", "web")]) (some [])
        "/metadata/labels" false
      = [{ Op := "add", Path := "/metadata/labels/app.kubernetes.io/name",
           Value := ObjectValue.string "web" }]
    ∧ rfc6901.tokens "/metadata/labels/app.kubernetes.io/name"
      = some ["metadata", "labels", "app.kubernetes.io", "name"]
    ∧ rfc6901.tokens "/metadata/labels/app.kubernetes.io/name"
      ≠ (rfc6901.tokens "/metadata/labels").map (fun ts => ts ++ ["app.kubernetes.io/name"])
    ∧ (createObjectPatches (some [("a~1b", "v")]) (some [("a~1b", "old")])
        "/metadata/annotations" true).map (fun op => (op.Op, rfc6901.tokens op.Path))
      = [("replace", some ["metadata", "annotations", "a/b"])] := by
  decide

/-! ## Applying the array operations -/

theorem append_dash_ne (base : String) : base ++ "/-" ≠ base := by
  intro h
  have hd : (base ++ "/-").data.length = base.data.length := by rw [h]
  have htwo : ("/-" : String).data.length = 2 := by decide
  rw [String.data_append, List.length_append, htwo] at hd
  omega

theorem applyArrayOp_appendOp {T : Type} (base : String) (a : List T) (x : T) :
    applyArrayOp base (some a) (appendOp base x) = some (some (a ++ [x])) := by
  simp [applyArrayOp, appendOp, append_dash_ne]

theorem applyArrayOp_establishOp {T : Type} (base : String) (arr : Option (List T)) (x : T) :
    applyArrayOp base arr (establishOp base x) = some (some [x]) := by
  simp [applyArrayOp, establishOp]

theorem applyArrayOps_appendOps {T : Type} (base : String) (l a : List T) :
    applyArrayOps base (l.map (appendOp base)) (some a) = some (some (a ++ l)) := by
  induction l generalizing a with
  | nil => simp [applyArrayOps]
  | cons x xs ih =>
    simp only [List.map_cons, applyArrayOps, applyArrayOp_appendOp]
    rw [ih]
    simp

/-- C18: under the reading in which "add" at the base path sets the array and "add"
at the append path appends, the operations of one call of `createArrayPatches`,
applied in order to the existing array (absent or empty when the existing
collection is empty), are all accepted and leave the existing elements followed
by the new ones; no append meets an absent array, since over an empty existing
collection the first operation is the one that sets the array. -/
theorem C18_single_call_appends_all {T : Type} (newCollection existingCollection : List T)
    (base : String) (arr : Option (List T))
    (harr : arr = some existingCollection ∨ (arr = none ∧ existingCollection = [])) :
    (∃ final,
      applyArrayOps base (createArrayPatches newCollection existingCollection base) arr
        = some final
      ∧ final.getD [] = existingCollection ++ newCollection)
    ∧ (∀ (x : T) (xs : List T),
        (createArrayPatches (x :: xs) ([] : List T) base).head?
          = some { Op := "add", Path := base, Value := ArrayValue.slice [x] }) := by
  constructor
  · cases existingCollection with
    | cons e es =>
      rcases harr with h | ⟨_, h⟩
      · subst h
        rw [createArrayPatches_cons_existing, applyArrayOps_appendOps]
        exact ⟨_, rfl, rfl⟩
      · exact absurd h (by simp)
    | nil =>
      cases newCollection with
      | nil =>
        refine ⟨arr, rfl, ?_⟩
        rcases harr with h | ⟨h, _⟩ <;> simp [h]
      | cons x xs =>
        rw [createArrayPatches_nil_existing]
        simp only [applyArrayOps, applyArrayOp_establishOp]
        rw [applyArrayOps_appendOps]
        exact ⟨_, rfl, by simp⟩
  · intro x xs
    rw [createArrayPatches_nil_existing]
    rfl

/-- C18 at one existing container and two new ones, and at two new containers over
an absent array. -/
theorem C18_single_call_appends_all_witness :
    (∃ final,
      applyArrayOps "/spec/containers"
          (createArrayPatches [Container.mk "a" "img-a", Container.mk "b" "img-b"]
            [Container.mk "main" "img"] "/spec/containers")
          (some [Container.mk "main" "img"]) = some final
      ∧ final.getD []
        = [Container.mk "main" "img"] ++ [Container.mk "a" "img-a", Container.mk "b" "img-b"])
    ∧ (∃ final,
      applyArrayOps "/spec/containers"
          (createArrayPatches [Container.mk "a" "img-a", Container.mk "b" "img-b"]
            [] "/spec/containers") none = some final
      ∧ final.getD [] = [] ++ [Container.mk "a" "img-a", Container.mk "b" "img-b"]) :=
  ⟨(C18_single_call_appends_all [Container.mk "a" "img-a", Container.mk "b" "img-b"]
      [Container.mk "main" "img"] "/spec/containers" (some [Container.mk "main" "img"])
      (Or.inl rfl)).1,
   (C18_single_call_appends_all [Container.mk "a" "img-a", Container.mk "b" "img-b"]
      [] "/spec/containers" none (Or.inr ⟨rfl, rfl⟩)).1⟩

/-- C19 (the code at two templates over an empty array): for a pod with one
container and no volume, and an object holding two templates that each bring one
container and one volume, `PatchPodCreate` returns two operations at
"/spec/volumes", each setting the array to one volume; applied in order the volume
operations leave `vol-b` alone, not `vol-a` followed by `vol-b`. -/
theorem C19_second_template_resets_array :
    (PatchPodCreate (demoPatcher twoTemplatesClient) twoTemplatesEnv "default" webPod).1
      = [{ Op := "add", Path := "/spec/containers/-",
           Value := PodValue.container (ArrayValue.item (Container.mk "a" "img-a")) },
         { Op := "add", Path := "/spec/volumes",
           Value := PodValue.volume (ArrayValue.slice [Volume.mk "vol-a"]) },
         { Op := "add", Path := "/spec/containers/-",
           Value := PodValue.container (ArrayValue.item (Container.mk "b" "img-b")) },
         { Op := "add", Path := "/spec/volumes",
           Value := PodValue.volume (ArrayValue.slice [Volume.mk "vol-b"]) }]
    ∧ applyArrayOps "/spec/volumes"
        (volumeOpsOf
          (PatchPodCreate (demoPatcher twoTemplatesClient) twoTemplatesEnv "default" webPod).1)
        none
      = some (some [Volume.mk "vol-b"])
    ∧ ((PatchPodCreate (demoPatcher twoTemplatesClient) twoTemplatesEnv "default"
        webPod).1.filter (fun op => op.Path = "/spec/volumes")).length = 2 := by
  decide

/-- C20 at `demoPod "app"` with "app" held in the shared namespace: an operation is
returned, and the pod carries the injection annotation. -/
theorem C20_no_whole_map_annotation_operation_witness :
    (PatchPodCreate (demoPatcher sharedClient) demoEnv "default" (demoPod "app")).1 ≠ []
    ∧ (demoPod "app").Annotations ≠ none
    ∧ (demoPod "app").Annotations.get? ( sideCarInjectionAnnotation (demoPatcher sharedClient))
        ≠ none :=
  ⟨by decide,
   (C20_no_whole_map_annotation_operation (demoPatcher sharedClient) demoEnv "default"
      (demoPod "app")).2.1 (by decide)⟩

/-! ## The patch list against the specification's resolution -/

/-- Away from the two departures of the code (a found object without the data key,
a decoder error that leaves a slice), the namespace loop applies the templates of
the object the specification resolves. -/
theorem appliedTemplates_eq_specTemplates (patcher : SidecarInjectorPatcher) (env : Env)
    (name : String) (nss : List String)
    (hkey : ∀ ns ∈ nss, ∀ cm, patcher.K8sClient ns name = .ok cm →
      cm.Data.get? patcher.SidecarDataKey ≠ none)
    (hdecode : ∀ str, (env.yamlUnmarshal str).2 = true → (env.yamlUnmarshal str).1 = none) :
    appliedTemplates patcher env nss name = specTemplates patcher env name nss := by
  induction nss with
  | nil => rfl
  | cons ns rest ih =>
    have ih2 := ih (fun m hm => hkey m (List.mem_cons_of_mem _ hm))
    cases hget : patcher.K8sClient ns name with
    | error e =>
      cases e with
      | notFound =>
        have hpass : passesOver patcher name ns = true := by simp [passesOver, hget]
        have happ : appliedTemplates patcher env (ns :: rest) name
            = appliedTemplates patcher env rest name := by
          simp [appliedTemplates, List.find?_cons, hpass]
        rw [happ, ih2]
        simp [specTemplates, hget]
      | other msg =>
        have hpass : passesOver patcher name ns = false := by simp [passesOver, hget]
        simp [appliedTemplates, specTemplates, List.find?_cons, hpass, hget]
    | ok cm =>
      cases hk : cm.Data.get? patcher.SidecarDataKey with
      | none => exact absurd hk (hkey ns (List.mem_cons_self _ _) cm hget)
      | some str =>
        have hpass : passesOver patcher name ns = false := by simp [passesOver, hget, hk]
        simp only [appliedTemplates, specTemplates, List.find?_cons, hpass, hget, hk,
          Bool.not_false]
        cases hflag : (env.yamlUnmarshal str).2 with
        | false => simp
        | true => simp [hdecode str hflag]

/-- Away from the two departures of the code, `PatchPodCreate` returns the patch
list of the specification. -/
theorem PatchPodCreate_eq_specPatchList (patcher : SidecarInjectorPatcher) (env : Env)
    (nspace : String) (pod : Pod)
    (hkey : ∀ name ns cm, patcher.K8sClient ns name = .ok cm →
      cm.Data.get? patcher.SidecarDataKey ≠ none)
    (hdecode : ∀ str, (env.yamlUnmarshal str).2 = true → (env.yamlUnmarshal str).1 = none) :
    (PatchPodCreate patcher env nspace pod).1 = specPatchList patcher env nspace pod := by
  unfold specPatchList
  have hrun : (PatchPodCreate patcher env nspace pod).1
      = (PatchPodCreate.run patcher env nspace pod).patches := rfl
  rw [hrun, run_patches_eq]
  congr 1
  funext name
  rw [appliedTemplates_eq_specTemplates patcher env name _
    (fun ns _ cm h => hkey name ns cm h) hdecode]

/-- C13 (the code against the resolved object): at the two inputs where the code
departs from the resolution of the specification, the returned list is not the
concatenation of the operations of the templates of the resolved object.  For an
object whose data fails to decode after one entry was stored, the object yields
zero templates and the concatenation is empty, yet `PatchPodCreate` returns the
operation of the stored entry; for an object found in the pod's namespace without
the data key, the object resolved is that one and the concatenation is empty, yet
`PatchPodCreate` returns the operation of the template of the shared namespace. -/
theorem C13_patch_list_departs_from_resolved_object :
    (mistypedEnv.yamlUnmarshal mistypedText).2 = true
    ∧ specPatchList (demoPatcher mistypedClient) mistypedEnv "default" (demoPod "app") = []
    ∧ (PatchPodCreate (demoPatcher mistypedClient) mistypedEnv "default" (demoPod "app")).1
      = [{ Op := "add", Path := "/spec/containers",
           Value := PodValue.container (ArrayValue.slice [Container.mk "c" "img"]) }]
    ∧ keylessClient "default" "app" = .ok { Data := some [("other", "x")] }
    ∧ specPatchList (demoPatcher keylessClient) yamlEnv "default" (demoPod "app") = []
    ∧ (PatchPodCreate (demoPatcher keylessClient) yamlEnv "default" (demoPod "app")).1
      = [{ Op := "add", Path := "/spec/containers",
           Value := PodValue.container (ArrayValue.slice [Container.mk "c" "img"]) }] := by
  refine ⟨by decide, by decide, by decide, rfl, by decide, by decide⟩

end Webhook
